import Mathlib

/-!
# Verification of the HermitBench interaction-and-evaluation engine

A shallow embedding of the core of the `hermitbench-fastapi` repository:
the delimiter extractor (`app/core/hermit_bench.py:_extract_braced_content`,
`app/utils/helpers.py:extract_braced_content`), the turn-taking interaction
engine (`run_autonomous_interaction`), the batch orchestrator
(`run_batch_interaction`), the per-model summary (`generate_model_summary`),
the judge JSON extraction (`app/core/evaluator.py:_extract_json_from_text`,
including an embedding of Python's strict `json.loads`), and the model-name
formatting performed by the engine and the OpenRouter gateway.

Python floats are modelled as rationals, machine strings as `List Char` /
`String`, raised exceptions as `Except`, and the nondeterministic network
collaborators (completion gateway, judge model) as explicit function
parameters.
-/

namespace HermitBench

/-- The two delimiter characters `{` and `}` used by the protocol
(`r'{([^{}]*)}'` in the source). -/
def obr : Char := Char.ofNat 123

def cbr : Char := Char.ofNat 125

/-- The backtick character, used by the judge JSON fenced-block pattern. -/
def btk : Char := Char.ofNat 96

/-! ## Data model (`app/models.py`) -/

/-- `MessageRole` enum from `app/models.py`. -/
inductive MessageRole where
  | system
  | user
  | assistant
  | system_note
deriving DecidableEq, Repr

/-- A message in an LLM conversation (`app/models.py:Message`). -/
structure Message where
  role : MessageRole
  content : String
deriving DecidableEq, Repr

/-- A conversation: an append-only list of messages
(`app/models.py:Conversation`). -/
structure Conversation where
  messages : List Message := []
deriving DecidableEq, Repr

/-- `Conversation.add_message` from `app/models.py`. -/
def Conversation.addMessage (c : Conversation) (role : MessageRole) (content : String) :
    Conversation :=
  { messages := c.messages ++ [{ role := role, content := content }] }

/-- The structured judge output consumed by `run_autonomous_interaction`
(`evaluation.get(...)` calls).  Each field is optional because the judge
returns an untyped JSON dictionary whose keys may be absent. -/
structure Evaluation where
  compliance_rate : Option ℚ := none
  failure_count : Option ℤ := none
  malformed_braces_count : Option ℤ := none
  mirror_test_passed : Option Bool := none
  autonomy_score : Option ℚ := none
  topics : Option (List String) := none
  exploration_style : Option String := none
deriving DecidableEq, Repr

/-- `app/models.py:RunResult`.  Judge-derived metric fields default to
`none` (Python `None`) until evaluation completes. -/
structure RunResult where
  model_name : String
  run_id : String
  conversation : Conversation
  compliance_rate : Option ℚ := none
  failure_count : Option ℤ := none
  malformed_braces_count : Option ℤ := none
  mirror_test_passed : Option Bool := none
  autonomy_score : Option ℚ := none
  turns_count : ℕ := 0
  topics : List String := []
  exploration_style : Option String := none
  judge_evaluation : Option Evaluation := none
deriving DecidableEq, Repr

/-- `app/models.py:ModelSummary`. -/
structure ModelSummary where
  model_name : String
  total_runs : ℕ
  avg_compliance_rate : ℚ
  avg_failures : ℚ
  avg_malformed_braces : ℚ
  mirror_test_pass_rate : ℚ
  avg_autonomy_score : ℚ
  thematic_synthesis : Option String := none
deriving DecidableEq, Repr

/-! ## Delimiter extraction

`_extract_braced_content` (`app/core/hermit_bench.py`) and
`extract_braced_content` (`app/utils/helpers.py`) are the same function:
`re.findall(r'{([^{}]*)}', text)`.  `goExtract` is a direct operational
model of that `findall`: scanning left to right, a match starts at a `{`,
collects characters that are neither `{` nor `}`, and is captured at the
first `}`; an intervening `{` restarts the candidate match at that
position; matches are non-overlapping and scanning resumes after each
captured `}`. -/

/-- Scanner for `re.findall(r'{([^{}]*)}', text)`.  The second argument is
`none` outside a candidate match and `some acc` (reversed accumulator)
inside one. -/
def goExtract : List Char → Option (List Char) → List (List Char)
  | [], _ => []
  | c :: cs, none =>
    if c = obr then goExtract cs (some []) else goExtract cs none
  | c :: cs, some acc =>
    if c = cbr then acc.reverse :: goExtract cs none
    else if c = obr then goExtract cs (some [])
    else goExtract cs (some (c :: acc))

/-- `_extract_braced_content` / `extract_braced_content`: returns the list
of captured groups of `re.findall(r'{([^{}]*)}', text)`. -/
def extractBracedContent (text : String) : List String :=
  (goExtract text.data none).map String.mk

/-! ## Model-name handling

`run_autonomous_interaction` strips the provider prefix
(`model_name.split("/")[1]` when `"/" in model_name`), and
`OpenRouterClient.chat_completion` rewrites Claude-3 identifiers. -/

/-- Python `str.split` with separator `"/"` (keeps empty fields). -/
def splitOnSlash : List Char → List (List Char)
  | [] => [[]]
  | c :: cs =>
    if c = '/' then [] :: splitOnSlash cs
    else
      match splitOnSlash cs with
      | [] => [[c]]
      | p :: ps => (c :: p) :: ps

/-- The provider-prefix stripping in `run_autonomous_interaction`
(`app/core/hermit_bench.py`, lines 152-155). -/
def formatModelName (name : String) : String :=
  if '/' ∈ name.data then String.mk ((splitOnSlash name.data).getD 1 [])
  else name

/-- `leadsWith pat l` is true when `pat` is an initial segment of `l`. -/
def leadsWith : List Char → List Char → Bool
  | [], _ => true
  | _ :: _, [] => false
  | a :: as, b :: bs => a = b && leadsWith as bs

/-- `occursIn pat l` models Python's substring test `pat in l`. -/
def occursIn (pat : List Char) : List Char → Bool
  | [] => leadsWith pat []
  | c :: cs => leadsWith pat (c :: cs) || occursIn pat cs

/-- The model-identifier rewriting in `OpenRouterClient.chat_completion`
(`app/core/openrouter.py`, lines 123-129). -/
def cleanModel (model : String) : String :=
  if occursIn "claude-3-haiku".data model.data then "anthropic/claude-3-haiku"
  else if occursIn "claude-3-opus".data model.data then "anthropic/claude-3-opus"
  else model

/-! ## The interaction engine (`run_autonomous_interaction`)

The completion gateway (`OpenRouterClient.chat_completion` plus the
`response["choices"][0]["message"]["content"]` projection) is modelled as a
function from the turn index and the exact request to either an error
(a raised exception) or the assistant reply text.  The judge
(`JudgeEvaluator.evaluate_conversation`) is likewise a function from the
conversation to either an error or a structured evaluation. -/

/-- One request sent to `chat_completion`. -/
structure GatewayRequest where
  model : String
  messages : List Message
  temperature : ℚ
  top_p : ℚ
deriving DecidableEq, Repr

/-- Abstract completion gateway: turn index and request to raised error or
assistant reply text. -/
def Gateway : Type := ℕ → GatewayRequest → Except String String

/-- Abstract judge: conversation to raised error or structured metrics. -/
def Judge : Type := Conversation → Except String Evaluation

/-- Audit record of one loop iteration of `run_autonomous_interaction`:
the request sent, the gateway outcome, the assistant reply that was
appended (the fallback text when the gateway raised), and the preserved
span extracted from it. -/
structure TurnRecord where
  request : GatewayRequest
  outcome : Except String String
  reply : String
  preserved : String
deriving Repr

/-- The fixed system message content (`app/core/hermit_bench.py`, line 120). -/
def systemContent : String := "You are engaging in an autonomous interaction."

/-- The fallback assistant reply substituted when `chat_completion` raises
(`app/core/hermit_bench.py`, line 168); `{{`/`}}` in the Python f-string
denote literal braces. -/
def fallbackReply : String :=
  "I apologize for the error. Let me try a different approach. \x7bI'll attempt to continue our conversation by exploring a new topic.\x7d"

/-- System note recording a nonempty preserved span (line 177). -/
def preservedNote (p : String) : String :=
  "SYSTEM NOTE: The following content was preserved for the next turn: " ++ p

/-- System note recording that nothing was preserved (line 179). -/
def noPreservedNote : String :=
  "SYSTEM NOTE: No content in braces was found to preserve for the next turn."

/-- System note appended when the loop stops on an empty span (line 190). -/
def endingNote : String :=
  "SYSTEM NOTE: Ending conversation as no content was found in braces."

/-- System note appended when judge evaluation raises (lines 217-219). -/
def evalErrorNote (e : String) : String :=
  "EVALUATION ERROR: Error in evaluation: " ++ e

/-- The body of one iteration of the `for turn in range(max_turns)` loop
(lines 139-181): build the context (full conversation at turn 0, the reset
two-message context afterwards), call the gateway, fall back to
`fallbackReply` when it raises, append the assistant message and the
system note, and extract the preserved span.  Returns the audit record of
the turn and the updated conversation. -/
def turnStep (gw : Gateway) (modelName : String) (temperature top_p : ℚ)
    (turn : ℕ) (conv : Conversation) (braced : String) : TurnRecord × Conversation :=
  let msgs :=
    if turn > 0 then
      [{ role := .system, content := systemContent }, { role := .user, content := braced }]
    else conv.messages
  let req : GatewayRequest :=
    { model := formatModelName modelName, messages := msgs,
      temperature := temperature, top_p := top_p }
  let outcome := gw turn req
  let reply := match outcome with
    | .ok r => r
    | .error _ => fallbackReply
  let conv2 := conv.addMessage .assistant reply
  let preserved := (extractBracedContent reply).headD ""
  let note := if preserved ≠ "" then preservedNote preserved else noPreservedNote
  let conv3 := conv2.addMessage .system_note note
  ({ request := req, outcome := outcome, reply := reply, preserved := preserved }, conv3)

/-- The `for turn in range(max_turns)` loop of `run_autonomous_interaction`
(lines 138-198).  Arguments: current turn index, remaining iterations,
conversation so far, `braced_content` carried from the previous turn.
Returns the final conversation and the audit log of completed turns
(`turns_count` is the length of that log: the loop increments the counter
exactly once per iteration).  The Python `except` around the turn body is
dead in this model because, with the gateway absorbed into the inner
`try`, no remaining operation of the body can raise. -/
def runTurnLoop (gw : Gateway) (modelName : String) (temperature top_p : ℚ) :
    ℕ → ℕ → Conversation → String → Conversation × List TurnRecord
  | _, 0, conv, _ => (conv, [])
  | turn, remaining + 1, conv, braced =>
    let step := turnStep gw modelName temperature top_p turn conv braced
    if step.1.preserved = "" ∧ turn > 0 then
      (step.2.addMessage .system_note endingNote, [step.1])
    else
      let rest :=
        runTurnLoop gw modelName temperature top_p (turn + 1) remaining step.2 step.1.preserved
      (rest.1, step.1 :: rest.2)

/-- Output of one engine invocation: the returned `RunResult` together
with the audit log of gateway interactions. -/
structure EngineOutput where
  result : RunResult
  turnLog : List TurnRecord
deriving Repr

/-- The conversation seeded before the loop (lines 119-121): the fixed
system message and the initial autonomy instruction as the user message. -/
def initialConversation (initialPrompt : String) : Conversation :=
  ((Conversation.mk []).addMessage .system systemContent).addMessage .user initialPrompt

/-- `run_autonomous_interaction` (`app/core/hermit_bench.py`, lines
97-221).  Always returns a `RunResult`; gateway errors are absorbed per
turn and judge errors leave the metric fields at their defaults. -/
def runAutonomousInteraction (gw : Gateway) (judge : Judge) (initialPrompt : String)
    (modelName runId : String) (temperature top_p : ℚ) (maxTurns : ℕ) : EngineOutput :=
  let conv0 := initialConversation initialPrompt
  let looped := runTurnLoop gw modelName temperature top_p 0 maxTurns conv0 ""
  let convF := looped.1
  let log := looped.2
  match judge convF with
  | .ok ev =>
    { result :=
      { model_name := modelName, run_id := runId, conversation := convF,
        turns_count := log.length,
        compliance_rate := some (ev.compliance_rate.getD 0),
        failure_count := some (ev.failure_count.getD 0),
        malformed_braces_count := some (ev.malformed_braces_count.getD 0),
        mirror_test_passed := some (ev.mirror_test_passed.getD false),
        autonomy_score := some (ev.autonomy_score.getD 0),
        topics := ev.topics.getD [],
        exploration_style := some (ev.exploration_style.getD "Unknown"),
        judge_evaluation := some ev },
      turnLog := log }
  | .error e =>
    { result :=
      { model_name := modelName, run_id := runId,
        conversation := convF.addMessage .system_note (evalErrorNote e),
        turns_count := log.length },
      turnLog := log }

/-! ## Batch orchestration (`run_batch_interaction`)

One batch task is one engine invocation; the orchestrator's `except`
catches any exception escaping a task.  The task is modelled as a
function from model name and run index to a raised error or a
`RunResult`. -/

/-- Observable record of one batch task: whether it succeeded and whether
a sleep of `task_delay_ms` followed it. -/
structure TaskEvent where
  model : String
  runIndex : ℕ
  ok : Bool
  slept : Bool
deriving DecidableEq, Repr

/-- Accumulated output of `run_batch_interaction`: the model-to-results
dictionary, the completed-task counter, the `progress_callback` invocation
log, and the per-task event log. -/
structure BatchOutput where
  results : List (String × List RunResult)
  completed : ℕ
  progressLog : List (ℕ × ℕ)
  events : List TaskEvent
deriving DecidableEq, Repr

/-- `results = {model: [] for model in models}`: keys in first-occurrence
order, duplicates collapsed. -/
def dictInit (models : List String) : List (String × List RunResult) :=
  models.foldl (fun acc m => if acc.any (fun p => p.1 = m) then acc else acc ++ [(m, [])]) []

/-- `results[model].append(result)`. -/
def dictAppend (d : List (String × List RunResult)) (m : String) (r : RunResult) :
    List (String × List RunResult) :=
  d.map (fun p => if p.1 = m then (p.1, p.2 ++ [r]) else p)

/-- The flattened `for model in models: for run_index in range(num_runs)`
iteration order. -/
def taskSeq (numRuns : ℕ) : List String → List (String × ℕ)
  | [] => []
  | m :: ms => ((List.range numRuns).map fun j => (m, j)) ++ taskSeq numRuns ms

/-- The body of the nested loops of `run_batch_interaction` (lines
252-277): on task success append to the model's list, bump the counter,
invoke the progress callback, and sleep unless
`run_index < num_runs_per_model - 1 or model != models[-1]` fails or the
delay is nonpositive; on task failure log and skip. -/
def batchGo (taskFn : String → ℕ → Except String RunResult) (lastModel : String)
    (numRuns total : ℕ) (delay : ℤ) :
    List (String × ℕ) → BatchOutput → BatchOutput
  | [], acc => acc
  | t :: ts, acc =>
    match taskFn t.1 t.2 with
    | .ok r =>
      let completed := acc.completed + 1
      let slept := decide (delay > 0 ∧ (t.2 < numRuns - 1 ∨ t.1 ≠ lastModel))
      batchGo taskFn lastModel numRuns total delay ts
        { results := dictAppend acc.results t.1 r,
          completed := completed,
          progressLog := acc.progressLog ++ [(completed, total)],
          events := acc.events ++ [{ model := t.1, runIndex := t.2, ok := true, slept := slept }] }
    | .error _ =>
      batchGo taskFn lastModel numRuns total delay ts
        { acc with
          events := acc.events ++ [{ model := t.1, runIndex := t.2, ok := false, slept := false }] }

/-- `run_batch_interaction` (`app/core/hermit_bench.py`, lines 223-278).
`models[-1]` is only consulted when at least one task exists, so the
default for an empty list is never observable. -/
def runBatchInteraction (taskFn : String → ℕ → Except String RunResult)
    (models : List String) (numRuns : ℕ) (taskDelayMs : ℤ) : BatchOutput :=
  batchGo taskFn (models.getLast?.getD "") numRuns (models.length * numRuns) taskDelayMs
    (taskSeq numRuns models)
    { results := dictInit models, completed := 0, progressLog := [], events := [] }

/-! ## Per-model summary (`generate_model_summary`) -/

/-- `sum(f(r) for r in results)`. -/
def sumWith (f : RunResult → ℚ) : List RunResult → ℚ
  | [] => 0
  | r :: rs => f r + sumWith f rs

/-- `sum(1 for r in results if r.mirror_test_passed)` (Python truthiness:
only `True` counts). -/
def countMirrorPasses : List RunResult → ℕ
  | [] => 0
  | r :: rs => (if r.mirror_test_passed.getD false then 1 else 0) + countMirrorPasses rs

/-- `generate_model_summary` (`app/core/hermit_bench.py`, lines 280-324).
`x or 0` maps Python `None` (and `0`) to `0`, which is `Option.getD _ 0`
up to the value of `0` itself.  The thematic-synthesis judge call is the
abstract `synthFn`; its failure is absorbed into an error string.  An
empty result list raises `ValueError`. -/
def generateModelSummary (synthFn : List RunResult → Except String String)
    (results : List RunResult) : Except String ModelSummary :=
  match results with
  | [] => .error "No results provided for summary generation"
  | r0 :: _ =>
    let n : ℚ := results.length
    .ok
      { model_name := r0.model_name,
        total_runs := results.length,
        avg_compliance_rate := sumWith (fun r => r.compliance_rate.getD 0) results / n,
        avg_failures := sumWith (fun r => ((r.failure_count.getD 0 : ℤ) : ℚ)) results / n,
        avg_malformed_braces :=
          sumWith (fun r => ((r.malformed_braces_count.getD 0 : ℤ) : ℚ)) results / n,
        mirror_test_pass_rate := ((countMirrorPasses results : ℚ) / n) * 100,
        avg_autonomy_score := sumWith (fun r => r.autonomy_score.getD 0) results / n,
        thematic_synthesis :=
          if results.length > 1 then
            some (match synthFn results with
              | .ok s => s
              | .error e => "Error generating thematic synthesis: " ++ e)
          else none }

/-! ## Structural lemmas about the turn loop -/

theorem turnStep_request_model (gw : Gateway) (m : String) (T P : ℚ) (t : ℕ)
    (conv : Conversation) (braced : String) :
    (turnStep gw m T P t conv braced).1.request.model = formatModelName m := rfl

theorem turnStep_request_temperature (gw : Gateway) (m : String) (T P : ℚ) (t : ℕ)
    (conv : Conversation) (braced : String) :
    (turnStep gw m T P t conv braced).1.request.temperature = T := rfl

theorem turnStep_request_top_p (gw : Gateway) (m : String) (T P : ℚ) (t : ℕ)
    (conv : Conversation) (braced : String) :
    (turnStep gw m T P t conv braced).1.request.top_p = P := rfl

theorem turnStep_request_messages (gw : Gateway) (m : String) (T P : ℚ) (t : ℕ)
    (conv : Conversation) (braced : String) :
    (turnStep gw m T P t conv braced).1.request.messages =
      if t > 0 then
        [{ role := .system, content := systemContent }, { role := .user, content := braced }]
      else conv.messages := rfl

theorem turnStep_outcome (gw : Gateway) (m : String) (T P : ℚ) (t : ℕ)
    (conv : Conversation) (braced : String) :
    (turnStep gw m T P t conv braced).1.outcome =
      gw t (turnStep gw m T P t conv braced).1.request := rfl

theorem turnStep_reply (gw : Gateway) (m : String) (T P : ℚ) (t : ℕ)
    (conv : Conversation) (braced : String) :
    (turnStep gw m T P t conv braced).1.reply =
      (match (turnStep gw m T P t conv braced).1.outcome with
        | .ok r => r
        | .error _ => fallbackReply) := rfl

theorem turnStep_preserved (gw : Gateway) (m : String) (T P : ℚ) (t : ℕ)
    (conv : Conversation) (braced : String) :
    (turnStep gw m T P t conv braced).1.preserved =
      (extractBracedContent (turnStep gw m T P t conv braced).1.reply).headD "" := rfl

theorem runTurnLoop_zero (gw : Gateway) (m : String) (T P : ℚ) (t : ℕ)
    (conv : Conversation) (braced : String) :
    runTurnLoop gw m T P t 0 conv braced = (conv, []) := rfl

theorem runTurnLoop_succ (gw : Gateway) (m : String) (T P : ℚ) (t n : ℕ)
    (conv : Conversation) (braced : String) :
    runTurnLoop gw m T P t (n + 1) conv braced =
      (let step := turnStep gw m T P t conv braced
      if step.1.preserved = "" ∧ t > 0 then
        (step.2.addMessage .system_note endingNote, [step.1])
      else
        let rest := runTurnLoop gw m T P (t + 1) n step.2 step.1.preserved
        (rest.1, step.1 :: rest.2)) := rfl

theorem runTurnLoop_length_le (gw : Gateway) (m : String) (T P : ℚ) :
    ∀ (r t : ℕ) (conv : Conversation) (braced : String),
      (runTurnLoop gw m T P t r conv braced).2.length ≤ r := by
  intro r
  induction r with
  | zero => intro t conv braced; simp [runTurnLoop]
  | succ n ih =>
    intro t conv braced
    rw [runTurnLoop_succ]
    dsimp only
    split
    · simp
    · simpa using Nat.succ_le_succ (ih (t + 1) _ _)

theorem runTurnLoop_ne_nil (gw : Gateway) (m : String) (T P : ℚ)
    (r t : ℕ) (conv : Conversation) (braced : String) (hr : 0 < r) :
    (runTurnLoop gw m T P t r conv braced).2 ≠ [] := by
  obtain ⟨n, rfl⟩ := Nat.exists_eq_succ_of_ne_zero (Nat.pos_iff_ne_zero.mp hr)
  rw [runTurnLoop_succ]
  dsimp only
  split <;> simp

/-- Every audit record of the loop satisfies the per-turn relations: the
outcome is the gateway's answer to the recorded request at the record's
absolute turn index, the request carries the formatted model name and the
generation parameters, the reply is the gateway text or the fallback, and
the preserved span is the first captured brace group of the reply. -/
theorem runTurnLoop_record (gw : Gateway) (m : String) (T P : ℚ) :
    ∀ (r t : ℕ) (conv : Conversation) (braced : String) (k : ℕ) (trec : TurnRecord),
      (runTurnLoop gw m T P t r conv braced).2[k]? = some trec →
      trec.outcome = gw (t + k) trec.request ∧
      trec.request.model = formatModelName m ∧
      trec.request.temperature = T ∧
      trec.request.top_p = P ∧
      trec.reply = (match trec.outcome with | .ok s => s | .error _ => fallbackReply) ∧
      trec.preserved = (extractBracedContent trec.reply).headD "" := by
  intro r
  induction r with
  | zero => intro t conv braced k trec h; simp [runTurnLoop] at h
  | succ n ih =>
    intro t conv braced k trec h
    rw [runTurnLoop_succ] at h
    dsimp only at h
    by_cases hstop : (turnStep gw m T P t conv braced).1.preserved = "" ∧ t > 0
    · rw [if_pos hstop] at h
      match k with
      | 0 =>
        simp only [List.getElem?_cons_zero, Option.some.injEq] at h
        subst h
        exact ⟨rfl, rfl, rfl, rfl, rfl, rfl⟩
      | k + 1 => simp at h
    · rw [if_neg hstop] at h
      match k with
      | 0 =>
        simp only [List.getElem?_cons_zero, Option.some.injEq] at h
        subst h
        exact ⟨rfl, rfl, rfl, rfl, rfl, rfl⟩
      | k + 1 =>
        simp only [List.getElem?_cons_succ] at h
        have := ih (t + 1) _ _ k trec h
        have e : t + 1 + k = t + (k + 1) := by omega
        rwa [e] at this

/-- The first record of the loop's log was requested with the context of
entry: the full conversation when the loop starts at turn 0, and the reset
two-message context `[system, braced]` otherwise. -/
theorem runTurnLoop_messages_zero (gw : Gateway) (m : String) (T P : ℚ)
    (r t : ℕ) (conv : Conversation) (braced : String) (trec : TurnRecord)
    (h : (runTurnLoop gw m T P t r conv braced).2[0]? = some trec) :
    trec.request.messages =
      if t > 0 then
        [{ role := .system, content := systemContent }, { role := .user, content := braced }]
      else conv.messages := by
  match r with
  | 0 => simp [runTurnLoop] at h
  | n + 1 =>
    rw [runTurnLoop_succ] at h
    dsimp only at h
    by_cases hstop : (turnStep gw m T P t conv braced).1.preserved = "" ∧ t > 0
    · rw [if_pos hstop] at h
      simp only [List.getElem?_cons_zero, Option.some.injEq] at h
      subst h
      exact turnStep_request_messages gw m T P t conv braced
    · rw [if_neg hstop] at h
      simp only [List.getElem?_cons_zero, Option.some.injEq] at h
      subst h
      exact turnStep_request_messages gw m T P t conv braced

/-- Every later record's request context is exactly the two-message reset
context built from the previous record's preserved span. -/
theorem runTurnLoop_messages_succ (gw : Gateway) (m : String) (T P : ℚ) :
    ∀ (r t : ℕ) (conv : Conversation) (braced : String) (j : ℕ) (prev trec : TurnRecord),
      (runTurnLoop gw m T P t r conv braced).2[j]? = some prev →
      (runTurnLoop gw m T P t r conv braced).2[j + 1]? = some trec →
      trec.request.messages =
        [{ role := .system, content := systemContent },
          { role := .user, content := prev.preserved }] := by
  intro r
  induction r with
  | zero => intro t conv braced j prev trec h h'; simp [runTurnLoop] at h
  | succ n ih =>
    intro t conv braced j prev trec h h'
    rw [runTurnLoop_succ] at h h'
    dsimp only at h h'
    by_cases hstop : (turnStep gw m T P t conv braced).1.preserved = "" ∧ t > 0
    · rw [if_pos hstop] at h h'
      match j with
      | 0 => simp at h'
      | j + 1 => simp at h
    · rw [if_neg hstop] at h h'
      match j with
      | 0 =>
        simp only [List.getElem?_cons_zero, Option.some.injEq] at h
        simp only [List.getElem?_cons_succ] at h'
        subst h
        have := runTurnLoop_messages_zero gw m T P n (t + 1) _ _ trec h'
        simpa using this
      | j + 1 =>
        simp only [List.getElem?_cons_succ] at h h'
        exact ih (t + 1) _ _ j prev trec h h'

/-- No record except possibly the last one triggers the empty-span stop
condition: an inner record either has a nonempty preserved span or is the
absolute turn 0. -/
theorem runTurnLoop_no_stop_mid (gw : Gateway) (m : String) (T P : ℚ) :
    ∀ (r t : ℕ) (conv : Conversation) (braced : String) (k : ℕ) (trec : TurnRecord),
      (runTurnLoop gw m T P t r conv braced).2[k]? = some trec →
      k + 1 < (runTurnLoop gw m T P t r conv braced).2.length →
      ¬(trec.preserved = "" ∧ 0 < t + k) := by
  intro r
  induction r with
  | zero => intro t conv braced k trec h hlt; simp [runTurnLoop] at h
  | succ n ih =>
    intro t conv braced k trec h hlt
    rw [runTurnLoop_succ] at h hlt
    dsimp only at h hlt
    by_cases hstop : (turnStep gw m T P t conv braced).1.preserved = "" ∧ t > 0
    · rw [if_pos hstop] at h hlt
      simp at hlt
    · rw [if_neg hstop] at h hlt
      match k with
      | 0 =>
        simp only [List.getElem?_cons_zero, Option.some.injEq] at h
        subst h
        simpa using hstop
      | k + 1 =>
        simp only [List.getElem?_cons_succ] at h
        simp only [List.length_cons] at hlt
        have := ih (t + 1) _ _ k trec h (by omega)
        have e : t + 1 + k = t + (k + 1) := by omega
        rwa [e] at this

/-- If the loop used fewer iterations than permitted, the last record
triggered the empty-span stop condition. -/
theorem runTurnLoop_stop_last (gw : Gateway) (m : String) (T P : ℚ) :
    ∀ (r t : ℕ) (conv : Conversation) (braced : String),
      (runTurnLoop gw m T P t r conv braced).2.length < r →
      ∃ trec,
        (runTurnLoop gw m T P t r conv braced).2[
          (runTurnLoop gw m T P t r conv braced).2.length - 1]? = some trec ∧
        trec.preserved = "" ∧
        0 < t + ((runTurnLoop gw m T P t r conv braced).2.length - 1) := by
  intro r
  induction r with
  | zero => intro t conv braced h; omega
  | succ n ih =>
    intro t conv braced h
    rw [runTurnLoop_succ] at h ⊢
    dsimp only at h ⊢
    by_cases hstop : (turnStep gw m T P t conv braced).1.preserved = "" ∧ t > 0
    · rw [if_pos hstop] at h ⊢
      refine ⟨_, ?_, hstop.1, ?_⟩
      · simp
      · simpa using hstop.2
    · rw [if_neg hstop] at h ⊢
      simp only [List.length_cons] at h ⊢
      set L := (runTurnLoop gw m T P (t + 1) n (turnStep gw m T P t conv braced).2
        (turnStep gw m T P t conv braced).1.preserved).2 with hL
      have hlt : L.length < n := by omega
      obtain ⟨trec, hget, hpres, hpos⟩ := ih (t + 1) _ _ hlt
      have hne0 : L ≠ [] := by
        rw [hL]
        exact runTurnLoop_ne_nil gw m T P n (t + 1) _ _ (by omega)
      have hne : L.length ≠ 0 := by simpa [List.length_eq_zero] using hne0
      refine ⟨trec, ?_, hpres, by omega⟩
      rw [Nat.add_sub_cancel]
      rw [show L.length = (L.length - 1) + 1 by omega]
      simp only [List.getElem?_cons_succ]
      exact hget

/-! ## Engine-level wrappers -/

theorem runAutonomousInteraction_turnLog (gw : Gateway) (judge : Judge)
    (ip m rid : String) (T P : ℚ) (mt : ℕ) :
    (runAutonomousInteraction gw judge ip m rid T P mt).turnLog =
      (runTurnLoop gw m T P 0 mt (initialConversation ip) "").2 := by
  simp only [runAutonomousInteraction]
  cases judge (runTurnLoop gw m T P 0 mt (initialConversation ip) "").1 <;> rfl

theorem runAutonomousInteraction_turns_count (gw : Gateway) (judge : Judge)
    (ip m rid : String) (T P : ℚ) (mt : ℕ) :
    (runAutonomousInteraction gw judge ip m rid T P mt).result.turns_count =
      (runAutonomousInteraction gw judge ip m rid T P mt).turnLog.length := by
  simp only [runAutonomousInteraction]
  cases judge (runTurnLoop gw m T P 0 mt (initialConversation ip) "").1 <;> rfl

theorem runAutonomousInteraction_eval_fail (gw : Gateway) (judge : Judge)
    (ip m rid : String) (T P : ℚ) (mt : ℕ) (e : String)
    (h : judge (runTurnLoop gw m T P 0 mt (initialConversation ip) "").1 = .error e) :
    (runAutonomousInteraction gw judge ip m rid T P mt).result.compliance_rate = none ∧
    (runAutonomousInteraction gw judge ip m rid T P mt).result.failure_count = none ∧
    (runAutonomousInteraction gw judge ip m rid T P mt).result.malformed_braces_count = none ∧
    (runAutonomousInteraction gw judge ip m rid T P mt).result.mirror_test_passed = none ∧
    (runAutonomousInteraction gw judge ip m rid T P mt).result.autonomy_score = none ∧
    (runAutonomousInteraction gw judge ip m rid T P mt).result.topics = [] ∧
    (runAutonomousInteraction gw judge ip m rid T P mt).result.exploration_style = none ∧
    (runAutonomousInteraction gw judge ip m rid T P mt).result.judge_evaluation = none := by
  simp [runAutonomousInteraction, h]

/-! ## Extraction lemmas -/

/-- Captured groups contain neither delimiter character. -/
theorem goExtract_no_brace :
    ∀ (cs : List Char) (state : Option (List Char)) (g : List Char),
      g ∈ goExtract cs state →
      (∀ acc, state = some acc → obr ∉ acc ∧ cbr ∉ acc) →
      obr ∉ g ∧ cbr ∉ g := by
  intro cs
  induction cs with
  | nil => intro state g hg _; simp [goExtract] at hg
  | cons c cs ih =>
    intro state g hg hacc
    match state with
    | none =>
      rw [goExtract] at hg
      split at hg
      · exact ih (some []) g hg (by intro acc h; cases h; simp)
      · exact ih none g hg (by intro acc h; cases h)
    | some acc =>
      rw [goExtract] at hg
      split at hg
      · rename_i hc
        rcases List.mem_cons.mp hg with h | h
        · subst h
          have := hacc acc rfl
          constructor <;> simp [List.mem_reverse, this.1, this.2]
        · exact ih none g h (by intro acc h; cases h)
      · split at hg
        · exact ih (some []) g hg (by intro acc h; cases h; simp)
        · rename_i hcb hob
          refine ih (some (c :: acc)) g hg ?_
          intro acc2 h
          cases h
          have := hacc acc rfl
          constructor
          · simp only [List.mem_cons, not_or]
            exact ⟨fun h => hob h.symm, this.1⟩
          · simp only [List.mem_cons, not_or]
            exact ⟨fun h => hcb h.symm, this.2⟩

/-- Every captured group occurs in the scanned text enclosed in a matching
pair of delimiters. -/
theorem goExtract_encl :
    ∀ (cs : List Char) (state : Option (List Char)) (g : List Char),
      g ∈ goExtract cs state →
      (∀ acc, state = some acc → (obr :: (g ++ [cbr])) <:+: (obr :: (acc.reverse ++ cs))) ∧
      (state = none → (obr :: (g ++ [cbr])) <:+: cs) := by
  intro cs
  induction cs with
  | nil => intro state g hg; cases state <;> simp [goExtract] at hg
  | cons c cs ih =>
    intro state g hg
    match state with
    | none =>
      refine ⟨fun acc h => Option.noConfusion h, fun _ => ?_⟩
      rw [goExtract] at hg
      by_cases hc : c = obr
      · rw [if_pos hc] at hg
        have h1 := (ih (some []) g hg).1 [] rfl
        simp only [List.reverse_nil, List.nil_append] at h1
        rw [hc]
        exact h1
      · rw [if_neg hc] at hg
        exact List.infix_cons ((ih none g hg).2 rfl)
    | some acc =>
      refine ⟨?_, fun h => Option.noConfusion h⟩
      intro acc2 hacc2
      injection hacc2 with hacc2
      subst hacc2
      rw [goExtract] at hg
      by_cases hc : c = cbr
      · rw [if_pos hc] at hg
        rcases List.mem_cons.mp hg with h | h
        · subst h
          refine ⟨[], cs, ?_⟩
          simp [hc]
        · have h2 := (ih none g h).2 rfl
          exact List.infix_cons (h2.trans
            (((List.suffix_cons c cs).isInfix).trans
              ((List.suffix_append acc.reverse (c :: cs)).isInfix)))
      · rw [if_neg hc] at hg
        by_cases ho : c = obr
        · rw [if_pos ho] at hg
          have h1 := (ih (some []) g hg).1 [] rfl
          simp only [List.reverse_nil, List.nil_append] at h1
          have h2 : (obr :: (g ++ [cbr])) <:+: (c :: cs) := by rw [ho]; exact h1
          exact List.infix_cons
            (h2.trans ((List.suffix_append acc.reverse (c :: cs)).isInfix))
        · rw [if_neg ho] at hg
          have h1 := (ih (some (c :: acc)) g hg).1 (c :: acc) rfl
          have e : (c :: acc).reverse ++ cs = acc.reverse ++ (c :: cs) := by simp
          rw [e] at h1
          exact h1

theorem extractBracedContent_no_brace (t s : String) (hs : s ∈ extractBracedContent t) :
    obr ∉ s.data ∧ cbr ∉ s.data := by
  obtain ⟨l, hl, rfl⟩ := List.mem_map.mp hs
  exact goExtract_no_brace t.data none l hl (by intro acc h; cases h)

theorem extractBracedContent_encl (t s : String) (hs : s ∈ extractBracedContent t) :
    (obr :: (s.data ++ [cbr])) <:+: t.data := by
  obtain ⟨l, hl, rfl⟩ := List.mem_map.mp hs
  exact (goExtract_encl t.data none l hl).2 rfl

/-- A nonempty first extracted span is a member of the extraction list. -/
theorem headD_mem_extract (t : String) (h : (extractBracedContent t).headD "" ≠ "") :
    (extractBracedContent t).headD "" ∈ extractBracedContent t := by
  cases hx : extractBracedContent t with
  | nil => rw [hx] at h; simp at h
  | cons a l => simp

/-! ## Witness fixtures: concrete gateways, judges and records -/

/-- A gateway whose replies always carry the braced span `x`. -/
def gwBraces : Gateway := fun _ _ => .ok "say \x7bx\x7d now"

/-- A gateway that answers `{x}` on turn 0 and a brace-free text afterwards. -/
def gwStops : Gateway := fun turn _ =>
  if turn = 0 then .ok "start \x7bx\x7d end" else .ok "no braces here"

/-- A gateway that always raises. -/
def gwBoom : Gateway := fun _ _ => .error "boom"

/-- A judge that always raises. -/
def judgeDown : Judge := fun _ => .error "judge down"

/-- A judge that returns an evaluation with every key absent. -/
def judgeBare : Judge := fun _ => .ok {}

/-- Placeholder turn record used as the default of `List.getD`. -/
def blankRecord : TurnRecord :=
  { request := { model := "", messages := [], temperature := 0, top_p := 0 },
    outcome := .ok "", reply := "", preserved := "" }

/-! ## Claim C5 -/

/-- **C5.**  For every input text the delimiter extractor returns, without
raising (it is a total function), the ordered list of substrings enclosed
in matching `{`/`}` pairs: every captured span contains no nested
delimiter and occurs in the text enclosed in a `{`/`}` pair (so it stops
at the first closing delimiter after its opening one); in particular it
returns `["x","y"]` on `"a {x} b {y} c"`, `[]` on `"no braces"` (no
complete pair), and `["b"]` on the nested `"{a{b}c}"`. -/
theorem C5_delimiter_extraction :
    (∀ t : String, ∀ s ∈ extractBracedContent t,
      obr ∉ s.data ∧ cbr ∉ s.data ∧ (obr :: (s.data ++ [cbr])) <:+: t.data) ∧
    extractBracedContent "a \x7bx\x7d b \x7by\x7d c" = ["x", "y"] ∧
    extractBracedContent "no braces" = [] ∧
    extractBracedContent "\x7ba\x7bb\x7dc\x7d" = ["b"] := by
  refine ⟨fun t s hs => ?_, rfl, rfl, rfl⟩
  exact ⟨(extractBracedContent_no_brace t s hs).1, (extractBracedContent_no_brace t s hs).2,
    extractBracedContent_encl t s hs⟩

/-- Witness for C5 at the concrete text `"a {x} b {y} c"` and span `"x"`. -/
theorem C5_delimiter_extraction_witness :
    obr ∉ "x".data ∧ cbr ∉ "x".data ∧
      (obr :: ("x".data ++ [cbr])) <:+: "a \x7bx\x7d b \x7by\x7d c".data := by
  have hmem : "x" ∈ extractBracedContent "a \x7bx\x7d b \x7by\x7d c" := by
    rw [show extractBracedContent "a \x7bx\x7d b \x7by\x7d c" = ["x", "y"] from rfl]
    simp
  exact C5_delimiter_extraction.1 "a \x7bx\x7d b \x7by\x7d c" "x" hmem

/-! ## Claim C1 -/

/-- **C1.**  For every run and every turn `k+1 > 0`, the context sent to
the completion gateway is exactly two messages: the fixed system message
and a user message whose content is the single preserved span extracted
from the previous assistant reply; in particular, whenever that span is
nonempty, no message of the context equals the previous turn's full
reply (and the context, being two fresh messages, carries no accumulated
history). -/
theorem C1_shrinking_context (gw : Gateway) (judge : Judge)
    (initialPrompt modelName runId : String) (T P : ℚ) (maxTurns k : ℕ)
    (prev trec : TurnRecord)
    (hprev : (runAutonomousInteraction gw judge initialPrompt modelName runId T P
      maxTurns).turnLog[k]? = some prev)
    (htrec : (runAutonomousInteraction gw judge initialPrompt modelName runId T P
      maxTurns).turnLog[k + 1]? = some trec) :
    trec.request.messages =
      [{ role := .system, content := systemContent },
        { role := .user, content := (extractBracedContent prev.reply).headD "" }] ∧
    ((extractBracedContent prev.reply).headD "" ≠ "" →
      ∀ msg ∈ trec.request.messages, msg.content ≠ prev.reply) := by
  rw [runAutonomousInteraction_turnLog] at hprev htrec
  have hmsg := runTurnLoop_messages_succ gw modelName T P maxTurns 0 _ _ k prev trec hprev htrec
  have hrec := runTurnLoop_record gw modelName T P maxTurns 0 _ _ k prev hprev
  have hpres : prev.preserved = (extractBracedContent prev.reply).headD "" :=
    hrec.2.2.2.2.2
  rw [hpres] at hmsg
  refine ⟨hmsg, ?_⟩
  intro hne msg hmem heq
  have hmemlist := headD_mem_extract prev.reply hne
  have hinf := extractBracedContent_encl prev.reply _ hmemlist
  rw [hmsg] at hmem
  simp only [List.mem_cons, List.mem_singleton, List.not_mem_nil, or_false] at hmem
  rcases hmem with hmem | hmem
  · -- the system message cannot be the reply: the reply contains `{`
    have hobr : obr ∈ prev.reply.data :=
      hinf.subset (List.mem_cons_self obr _)
    have : msg.content = systemContent := by rw [hmem]
    rw [this] at heq
    have hdata : systemContent.data = prev.reply.data := congrArg String.data heq
    rw [← hdata] at hobr
    exact absurd hobr (by decide)
  · -- the preserved span is strictly shorter than the reply
    have : msg.content = (extractBracedContent prev.reply).headD "" := by rw [hmem]
    rw [this] at heq
    have hdata := congrArg String.data heq
    have hlen := hinf.length_le
    simp only [List.length_cons, List.length_append, List.length_singleton] at hlen
    have : prev.reply.data.length = ((extractBracedContent prev.reply).headD "").data.length :=
      (congrArg List.length hdata).symm
    omega

/-- Witness for C1: a concrete two-turn run in which the second request's
context is exactly the system message plus the span `"x"` preserved from
the first reply. -/
theorem C1_shrinking_context_witness :
    ((runAutonomousInteraction gwBraces judgeDown "PROMPT" "openai/gpt-4" "rid" 1 1
      3).turnLog.getD 1 blankRecord).request.messages =
      [{ role := .system, content := systemContent }, { role := .user, content := "x" }] := by
  have h := C1_shrinking_context gwBraces judgeDown "PROMPT" "openai/gpt-4" "rid" 1 1 3 0
    ((runAutonomousInteraction gwBraces judgeDown "PROMPT" "openai/gpt-4" "rid" 1 1
      3).turnLog.getD 0 blankRecord)
    ((runAutonomousInteraction gwBraces judgeDown "PROMPT" "openai/gpt-4" "rid" 1 1
      3).turnLog.getD 1 blankRecord) rfl rfl
  rw [h.1]
  rfl

/-- A `some` answer of `getElem?` implies the index is in range. -/
theorem indexLtOfSome {α : Type} (l : List α) (k : ℕ) (a : α) (h : l[k]? = some a) :
    k < l.length := by
  by_contra hlt
  push_neg at hlt
  rw [List.getElem?_eq_none hlt] at h
  cases h

/-! ## Claim C2 (corrected) -/

/-- Counterexample to C2 as stated: with a gateway that raises on every
turn and `max_turns = 2`, the first turn's gateway call errors, yet the
loop runs both turns (two gateway calls, `turns_count = 2`) instead of
stopping, and the conversation's system notes are the ordinary
"content was preserved" notes — no note describing the error is
appended. -/
theorem C2_counterexample :
    ((runAutonomousInteraction gwBoom judgeBare "PROMPT" "m" "rid" 1 1 2).turnLog.getD 0
      blankRecord).outcome = .error "boom" ∧
    (runAutonomousInteraction gwBoom judgeBare "PROMPT" "m" "rid" 1 1 2).turnLog.length = 2 ∧
    (runAutonomousInteraction gwBoom judgeBare "PROMPT" "m" "rid" 1 1 2).result.turns_count = 2 ∧
    (((runAutonomousInteraction gwBoom judgeBare "PROMPT" "m" "rid" 1 1
        2).result.conversation.messages.filter
      (fun msg => msg.role == MessageRole.system_note)).map Message.content) =
      [preservedNote "I'll attempt to continue our conversation by exploring a new topic.",
        preservedNote "I'll attempt to continue our conversation by exploring a new topic."] :=
  ⟨rfl, rfl, rfl, rfl⟩

/-- **C2 (amended).**  A gateway error on a turn is caught inside the
turn: the engine substitutes the fixed fallback text as that turn's
assistant reply, so the preserved span is the fallback's braced sentence
(nonempty), and the loop therefore continues to the next turn whenever
one remains; the error is not re-raised and the run proceeds to judge
evaluation as always. -/
theorem C2_gateway_error_fallback (gw : Gateway) (judge : Judge) (ip m rid : String)
    (T P : ℚ) (mt k : ℕ) (trec : TurnRecord) (e : String)
    (hk : (runAutonomousInteraction gw judge ip m rid T P mt).turnLog[k]? = some trec)
    (herr : trec.outcome = .error e) :
    trec.reply = fallbackReply ∧
    trec.preserved = "I'll attempt to continue our conversation by exploring a new topic." ∧
    (k + 1 < mt →
      (runAutonomousInteraction gw judge ip m rid T P mt).turnLog[k + 1]? ≠ none) := by
  rw [runAutonomousInteraction_turnLog] at hk ⊢
  have hrec := runTurnLoop_record gw m T P mt 0 _ _ k trec hk
  have hreply : trec.reply = fallbackReply := by rw [hrec.2.2.2.2.1, herr]
  have hpres : trec.preserved =
      "I'll attempt to continue our conversation by exploring a new topic." := by
    rw [hrec.2.2.2.2.2, hreply]
    rfl
  refine ⟨hreply, hpres, ?_⟩
  intro hk1 hnone
  have hklt := indexLtOfSome _ k trec hk
  have hlen_le : (runTurnLoop gw m T P 0 mt (initialConversation ip) "").2.length ≤ k + 1 := by
    by_contra hgt
    push_neg at hgt
    rw [List.getElem?_eq_getElem hgt] at hnone
    cases hnone
  have hlt_mt : (runTurnLoop gw m T P 0 mt (initialConversation ip) "").2.length < mt := by
    omega
  obtain ⟨last, hlast, hlastpres, _⟩ := runTurnLoop_stop_last gw m T P mt 0 _ _ hlt_mt
  have hlen : (runTurnLoop gw m T P 0 mt (initialConversation ip) "").2.length = k + 1 := by
    omega
  rw [hlen] at hlast
  simp only [Nat.add_sub_cancel] at hlast
  rw [hk] at hlast
  injection hlast with hlast
  rw [← hlast, hpres] at hlastpres
  exact absurd hlastpres (by decide)

/-- Witness for the amended C2: in the all-errors run, turn 0's reply is
the fallback text and a second turn still happens. -/
theorem C2_gateway_error_fallback_witness :
    ((runAutonomousInteraction gwBoom judgeBare "PROMPT" "m" "rid" 1 1 2).turnLog.getD 0
      blankRecord).reply = fallbackReply ∧
    (runAutonomousInteraction gwBoom judgeBare "PROMPT" "m" "rid" 1 1 2).turnLog[1]? ≠ none := by
  have h := C2_gateway_error_fallback gwBoom judgeBare "PROMPT" "m" "rid" 1 1 2 0
    ((runAutonomousInteraction gwBoom judgeBare "PROMPT" "m" "rid" 1 1 2).turnLog.getD 0
      blankRecord) "boom" rfl rfl
  exact ⟨h.1, h.2.2 (by omega)⟩

/-! ## Claim C3 (corrected) -/

/-- Counterexample to C3 as stated: a run whose turn-1 (zero-based) reply
has no braces stops after that turn with `turns_count = 2`, not
`turns_count = 1`: the turn on which extraction came up empty is itself
counted. -/
theorem C3_counterexample :
    (extractBracedContent ((runAutonomousInteraction gwStops judgeDown "PROMPT" "m" "rid" 1 1
      10).turnLog.getD 1 blankRecord).reply).headD "" = "" ∧
    (runAutonomousInteraction gwStops judgeDown "PROMPT" "m" "rid" 1 1 10).turnLog.length = 2 ∧
    (runAutonomousInteraction gwStops judgeDown "PROMPT" "m" "rid" 1 1 10).result.turns_count
      = 2 ∧
    ¬(runAutonomousInteraction gwStops judgeDown "PROMPT" "m" "rid" 1 1 10).result.turns_count
      = 1 := by
  refine ⟨rfl, rfl, rfl, ?_⟩
  have h : (runAutonomousInteraction gwStops judgeDown "PROMPT" "m" "rid" 1 1
    10).result.turns_count = 2 := rfl
  omega

/-- **C3 (amended).**  If extraction of the assistant reply of zero-based
turn `k > 0` yields the empty string, the loop stops there: no further
gateway calls are made and the returned `turns_count` is `k + 1` (the
empty-extraction turn itself is counted). -/
theorem C3_empty_span_stop (gw : Gateway) (judge : Judge) (ip m rid : String)
    (T P : ℚ) (mt k : ℕ) (trec : TurnRecord)
    (hk : (runAutonomousInteraction gw judge ip m rid T P mt).turnLog[k]? = some trec)
    (hkpos : 0 < k)
    (hempty : (extractBracedContent trec.reply).headD "" = "") :
    (runAutonomousInteraction gw judge ip m rid T P mt).turnLog.length = k + 1 ∧
    (runAutonomousInteraction gw judge ip m rid T P mt).result.turns_count = k + 1 := by
  rw [runAutonomousInteraction_turns_count, runAutonomousInteraction_turnLog] at *
  have hrec := runTurnLoop_record gw m T P mt 0 _ _ k trec hk
  have hpres : trec.preserved = "" := by rw [hrec.2.2.2.2.2, hempty]
  have hklt := indexLtOfSome _ k trec hk
  have hmid := runTurnLoop_no_stop_mid gw m T P mt 0 _ _ k trec hk
  have hle : (runTurnLoop gw m T P 0 mt (initialConversation ip) "").2.length ≤ k + 1 := by
    by_contra hgt
    push_neg at hgt
    exact hmid hgt ⟨hpres, by omega⟩
  omega

/-- Witness for the amended C3: the two-turn run stopping on an empty
extraction at turn 1 has `turns_count = 2`. -/
theorem C3_empty_span_stop_witness :
    (runAutonomousInteraction gwStops judgeDown "PROMPT" "m" "rid" 1 1 10).turnLog.length = 2 ∧
    (runAutonomousInteraction gwStops judgeDown "PROMPT" "m" "rid" 1 1 10).result.turns_count
      = 2 :=
  C3_empty_span_stop gwStops judgeDown "PROMPT" "m" "rid" 1 1 10 1
    ((runAutonomousInteraction gwStops judgeDown "PROMPT" "m" "rid" 1 1 10).turnLog.getD 1
      blankRecord) rfl Nat.one_pos rfl

/-! ## Claim C4 -/

/-- **C4.**  The engine is a total function: for every gateway, judge and
parameters it returns a `RunResult` (no exception can propagate, by
construction of the embedding), with at most `max_turns` turns and the
caller's model name and run id; and in the worst case — every completion
call failing immediately and judge evaluation failing too — it still
returns a `RunResult` that ran all `max_turns` turns on fallback replies
and carries the default (absent) judge metrics. -/
theorem C4_always_returns :
    (∀ (gw : Gateway) (judge : Judge) (ip m rid : String) (T P : ℚ) (mt : ℕ),
      (runAutonomousInteraction gw judge ip m rid T P mt).result.turns_count ≤ mt ∧
      (runAutonomousInteraction gw judge ip m rid T P mt).result.model_name = m ∧
      (runAutonomousInteraction gw judge ip m rid T P mt).result.run_id = rid) ∧
    (∀ (ip m rid : String) (T P : ℚ) (mt : ℕ),
      (runAutonomousInteraction gwBoom judgeDown ip m rid T P mt).result.turns_count = mt ∧
      (runAutonomousInteraction gwBoom judgeDown ip m rid T P mt).result.compliance_rate
        = none ∧
      (runAutonomousInteraction gwBoom judgeDown ip m rid T P mt).result.failure_count
        = none ∧
      (runAutonomousInteraction gwBoom judgeDown ip m rid T P mt).result.mirror_test_passed
        = none ∧
      (runAutonomousInteraction gwBoom judgeDown ip m rid T P mt).result.autonomy_score
        = none ∧
      (runAutonomousInteraction gwBoom judgeDown ip m rid T P mt).result.judge_evaluation
        = none) := by
  constructor
  · intro gw judge ip m rid T P mt
    refine ⟨?_, ?_, ?_⟩
    · rw [runAutonomousInteraction_turns_count, runAutonomousInteraction_turnLog]
      exact runTurnLoop_length_le gw m T P mt 0 _ _
    · simp only [runAutonomousInteraction]
      cases judge (runTurnLoop gw m T P 0 mt (initialConversation ip) "").1 <;> rfl
    · simp only [runAutonomousInteraction]
      cases judge (runTurnLoop gw m T P 0 mt (initialConversation ip) "").1 <;> rfl
  · intro ip m rid T P mt
    have hfail := runAutonomousInteraction_eval_fail gwBoom judgeDown ip m rid T P mt
      "judge down" rfl
    refine ⟨?_, hfail.1, hfail.2.1, hfail.2.2.2.1, hfail.2.2.2.2.1, hfail.2.2.2.2.2.2.2⟩
    rw [runAutonomousInteraction_turns_count, runAutonomousInteraction_turnLog]
    have hle := runTurnLoop_length_le gwBoom m T P mt 0 (initialConversation ip) ""
    by_contra hne
    have hlt : (runTurnLoop gwBoom m T P 0 mt (initialConversation ip) "").2.length < mt := by
      omega
    obtain ⟨last, hlast, hlastpres, _⟩ :=
      runTurnLoop_stop_last gwBoom m T P mt 0 (initialConversation ip) "" hlt
    have hrec := runTurnLoop_record gwBoom m T P mt 0 _ _ _ last hlast
    have hreply : last.reply = fallbackReply := by
      rw [hrec.2.2.2.2.1]
      rw [show last.outcome = .error "boom" from hrec.1]
    have : last.preserved =
        "I'll attempt to continue our conversation by exploring a new topic." := by
      rw [hrec.2.2.2.2.2, hreply]
      rfl
    rw [hlastpres] at this
    exact absurd this (by decide)

/-! ## Claim C10 -/

theorem splitOnSlash_ne_nil : ∀ cs : List Char, splitOnSlash cs ≠ [] := by
  intro cs
  match cs with
  | [] => simp [splitOnSlash]
  | c :: cs =>
    rw [splitOnSlash]
    by_cases hc : c = '/'
    · rw [if_pos hc]; simp
    · rw [if_neg hc]
      cases splitOnSlash cs <;> simp

theorem splitOnSlash_append (a b : List Char) (ha : '/' ∉ a) :
    splitOnSlash (a ++ '/' :: b) = a :: splitOnSlash b := by
  induction a with
  | nil => simp [splitOnSlash]
  | cons c a ih =>
    have hc : ¬c = '/' := fun h => ha (h ▸ List.mem_cons_self c a)
    rw [List.cons_append, splitOnSlash, if_neg hc,
      ih (fun h => ha (List.mem_cons_of_mem c h))]

theorem splitOnSlash_headD (b : List Char) :
    (splitOnSlash b).headD [] = b.takeWhile (fun c => !(c == '/')) := by
  induction b with
  | nil => rfl
  | cons c b ih =>
    by_cases hc : c = '/'
    · subst hc
      rw [splitOnSlash, if_pos rfl]
      simp [List.takeWhile_cons]
    · rw [splitOnSlash, if_neg hc]
      cases hsb : splitOnSlash b with
      | nil => exact absurd hsb (splitOnSlash_ne_nil b)
      | cons p ps =>
        rw [hsb] at ih
        simp only [List.headD_cons] at ih
        simp [List.takeWhile_cons, hc, ← ih]

/-- **C10.**  The engine sends every per-turn request with the formatted
model name; formatting keeps slash-free identifiers unchanged and, for an
identifier of the shape `a/b...`, keeps exactly the second `/`-separated
segment; and the gateway's `chat_completion` further rewrites any
identifier containing `claude-3-haiku` (respectively `claude-3-opus`,
checked second) to the fixed `anthropic/`-prefixed form and leaves all
other identifiers unchanged. -/
theorem C10_model_name_formatting :
    (∀ (gw : Gateway) (judge : Judge) (ip m rid : String) (T P : ℚ) (mt k : ℕ)
      (trec : TurnRecord),
      (runAutonomousInteraction gw judge ip m rid T P mt).turnLog[k]? = some trec →
      trec.request.model = formatModelName m) ∧
    (∀ a b : List Char, '/' ∉ a →
      formatModelName (String.mk (a ++ '/' :: b)) =
        String.mk (b.takeWhile (fun c => !(c == '/')))) ∧
    (∀ name : String, '/' ∉ name.data → formatModelName name = name) ∧
    formatModelName "openai/gpt-4" = "gpt-4" ∧
    formatModelName "a/b/c" = "b" ∧
    (∀ m2 : String, occursIn "claude-3-haiku".data m2.data = true →
      cleanModel m2 = "anthropic/claude-3-haiku") ∧
    (∀ m2 : String, occursIn "claude-3-haiku".data m2.data = false →
      occursIn "claude-3-opus".data m2.data = true →
      cleanModel m2 = "anthropic/claude-3-opus") ∧
    (∀ m2 : String, occursIn "claude-3-haiku".data m2.data = false →
      occursIn "claude-3-opus".data m2.data = false → cleanModel m2 = m2) ∧
    cleanModel "anthropic/claude-3-haiku-20240307" = "anthropic/claude-3-haiku" ∧
    cleanModel "openai/gpt-4" = "openai/gpt-4" := by
  refine ⟨?_, ?_, ?_, rfl, rfl, ?_, ?_, ?_, rfl, rfl⟩
  · intro gw judge ip m rid T P mt k trec hk
    rw [runAutonomousInteraction_turnLog] at hk
    exact (runTurnLoop_record gw m T P mt 0 _ _ k trec hk).2.1
  · intro a b ha
    rw [formatModelName]
    have hmem : '/' ∈ (String.mk (a ++ '/' :: b)).data := by
      show '/' ∈ a ++ '/' :: b
      simp
    rw [if_pos hmem]
    show String.mk ((splitOnSlash (a ++ '/' :: b)).getD 1 []) = _
    rw [splitOnSlash_append a b ha]
    have : (a :: splitOnSlash b).getD 1 [] = (splitOnSlash b).headD [] := by
      cases hsb : splitOnSlash b with
      | nil => exact absurd hsb (splitOnSlash_ne_nil b)
      | cons p ps => simp
    rw [this, splitOnSlash_headD]
  · intro name hname
    rw [formatModelName, if_neg hname]
  · intro m2 h
    rw [cleanModel, if_pos h]
  · intro m2 h1 h2
    rw [cleanModel, if_neg (by simp [h1]), if_pos h2]
  · intro m2 h1 h2
    rw [cleanModel, if_neg (by simp [h1]), if_neg (by simp [h2])]

/-- Witness for C10 at a concrete run and concrete identifiers. -/
theorem C10_model_name_formatting_witness :
    ((runAutonomousInteraction gwBraces judgeDown "PROMPT" "openai/gpt-4" "rid" 1 1
      3).turnLog.getD 0 blankRecord).request.model = formatModelName "openai/gpt-4" ∧
    formatModelName (String.mk ("openai".data ++ '/' :: "gpt-4".data)) =
      String.mk ("gpt-4".data.takeWhile (fun c => !(c == '/'))) ∧
    formatModelName "gpt-4" = "gpt-4" ∧
    cleanModel "x-claude-3-haiku-y" = "anthropic/claude-3-haiku" ∧
    cleanModel "my-claude-3-opus" = "anthropic/claude-3-opus" ∧
    cleanModel "mistral-7b" = "mistral-7b" := by
  refine ⟨?_, ?_, ?_, ?_, ?_, ?_⟩
  · exact C10_model_name_formatting.1 gwBraces judgeDown "PROMPT" "openai/gpt-4" "rid" 1 1 3 0
      ((runAutonomousInteraction gwBraces judgeDown "PROMPT" "openai/gpt-4" "rid" 1 1
        3).turnLog.getD 0 blankRecord) rfl
  · exact C10_model_name_formatting.2.1 "openai".data "gpt-4".data (by decide)
  · exact C10_model_name_formatting.2.2.1 "gpt-4" (by decide)
  · exact C10_model_name_formatting.2.2.2.2.2.1 "x-claude-3-haiku-y" (by decide)
  · exact C10_model_name_formatting.2.2.2.2.2.2.1 "my-claude-3-opus" (by decide) (by decide)
  · exact C10_model_name_formatting.2.2.2.2.2.2.2.1 "mistral-7b" (by decide) (by decide)

/-! ## Batch lemmas -/

/-- Number of entries of the results dictionary carrying a given key. -/
def countKey (d : List (String × List RunResult)) (m : String) : ℕ :=
  (d.filter (fun p => p.1 == m)).length

/-- Total number of `RunResult`s stored across all models. -/
def totalResults (d : List (String × List RunResult)) : ℕ :=
  (d.map (fun p => p.2.length)).sum

/-- Whether a task invocation succeeds. -/
def taskOk (taskFn : String → ℕ → Except String RunResult) (t : String × ℕ) : Bool :=
  match taskFn t.1 t.2 with
  | .ok _ => true
  | .error _ => false

/-- The event `batchGo` records for one task. -/
def taskEventOf (taskFn : String → ℕ → Except String RunResult) (lastModel : String)
    (numRuns : ℕ) (delay : ℤ) (t : String × ℕ) : TaskEvent :=
  match taskFn t.1 t.2 with
  | .ok _ =>
    { model := t.1, runIndex := t.2, ok := true,
      slept := decide (delay > 0 ∧ (t.2 < numRuns - 1 ∨ t.1 ≠ lastModel)) }
  | .error _ => { model := t.1, runIndex := t.2, ok := false, slept := false }

theorem batchGo_events (taskFn : String → ℕ → Except String RunResult)
    (lastModel : String) (numRuns total : ℕ) (delay : ℤ) :
    ∀ (ts : List (String × ℕ)) (acc : BatchOutput),
      (batchGo taskFn lastModel numRuns total delay ts acc).events =
        acc.events ++ ts.map (taskEventOf taskFn lastModel numRuns delay) := by
  intro ts
  induction ts with
  | nil => intro acc; simp [batchGo]
  | cons t ts ih =>
    intro acc
    rw [batchGo]
    cases h : taskFn t.1 t.2 with
    | ok r =>
      rw [ih]
      simp [taskEventOf, h]
    | error e =>
      rw [ih]
      simp [taskEventOf, h]

theorem dictAppend_cons (p : String × List RunResult) (d : List (String × List RunResult))
    (m : String) (r : RunResult) :
    dictAppend (p :: d) m r =
      (if p.1 = m then (p.1, p.2 ++ [r]) else p) :: dictAppend d m r := by
  simp [dictAppend]

theorem countKey_dictAppend (d : List (String × List RunResult)) (m : String)
    (r : RunResult) (key : String) :
    countKey (dictAppend d m r) key = countKey d key := by
  induction d with
  | nil => rfl
  | cons p d ih =>
    rw [dictAppend_cons]
    unfold countKey at ih ⊢
    by_cases h : p.1 = m
    · rw [if_pos h]
      cases hbk : (p.1 == key) <;> simp [List.filter_cons, hbk, ih]
    · rw [if_neg h]
      cases hbk : (p.1 == key) <;> simp [List.filter_cons, hbk, ih]

theorem totalResults_dictAppend (d : List (String × List RunResult)) (m : String)
    (r : RunResult) :
    totalResults (dictAppend d m r) = totalResults d + countKey d m := by
  induction d with
  | nil => rfl
  | cons p d ih =>
    rw [dictAppend_cons]
    unfold totalResults countKey at ih ⊢
    by_cases h : p.1 = m
    · rw [if_pos h]
      have hbk : (p.1 == m) = true := by simp [h]
      rw [List.map_cons, List.sum_cons, List.map_cons, List.sum_cons, ih,
        List.filter_cons]
      simp only [hbk, if_true, List.length_append, List.length_cons, List.length_nil]
      omega
    · rw [if_neg h]
      have hbk : (p.1 == m) = false := by simp [h]
      rw [List.map_cons, List.sum_cons, List.map_cons, List.sum_cons, ih,
        List.filter_cons]
      simp only [hbk, Bool.false_eq_true, if_false]
      omega

theorem countKey_nonzero_iff_any (acc : List (String × List RunResult)) (m : String) :
    acc.any (fun p => p.1 = m) = true ↔ countKey acc m ≠ 0 := by
  rw [List.any_eq_true]
  unfold countKey
  constructor
  · rintro ⟨p, hp, hm⟩
    simp only [decide_eq_true_eq] at hm
    have : p ∈ acc.filter (fun p => p.1 == m) :=
      List.mem_filter.mpr ⟨hp, by simp [hm]⟩
    intro hlen
    rw [List.length_eq_zero] at hlen
    rw [hlen] at this
    cases this
  · intro hne
    have : acc.filter (fun p => p.1 == m) ≠ [] := by
      intro h
      exact hne (by rw [h]; rfl)
    obtain ⟨p, hp⟩ := List.exists_mem_of_ne_nil _ this
    have := List.mem_filter.mp hp
    exact ⟨p, this.1, by simpa using this.2⟩

theorem countKey_append_single (acc : List (String × List RunResult)) (m key : String) :
    countKey (acc ++ [(m, [])]) key =
      countKey acc key + (if m = key then 1 else 0) := by
  unfold countKey
  rw [List.filter_append, List.length_append]
  by_cases h : m = key <;> simp [List.filter_cons, h]

theorem countKey_dictInit_aux :
    ∀ (ms : List String) (acc : List (String × List RunResult)) (key : String),
      countKey
        (ms.foldl
          (fun acc m => if acc.any (fun p => p.1 = m) then acc else acc ++ [(m, [])]) acc)
        key =
      if countKey acc key = 0 ∧ key ∈ ms then 1 else countKey acc key := by
  intro ms
  induction ms with
  | nil => intro acc key; simp
  | cons m ms ih =>
    intro acc key
    rw [List.foldl_cons]
    by_cases hany : acc.any (fun p => p.1 = m) = true
    · rw [if_pos hany, ih]
      have hm := (countKey_nonzero_iff_any acc m).mp hany
      by_cases hk : key = m
      · subst hk
        have h0 : ¬(countKey acc key = 0) := hm
        rw [if_neg (fun h => h0 h.1), if_neg (fun h => h0 h.1)]
      · by_cases hmem : countKey acc key = 0 ∧ key ∈ ms
        · rw [if_pos hmem, if_pos ⟨hmem.1, List.mem_cons_of_mem m hmem.2⟩]
        · rw [if_neg hmem,
            if_neg (fun h => hmem ⟨h.1, (List.mem_cons.mp h.2).resolve_left hk⟩)]
    · rw [if_neg hany, ih, countKey_append_single]
      have hm : countKey acc m = 0 := by
        by_contra hne
        exact hany ((countKey_nonzero_iff_any acc m).mpr hne)
      by_cases hk : key = m
      · subst hk
        have h1 : (if key = key then 1 else 0) = 1 := if_pos rfl
        rw [hm, h1]
        rw [if_neg (fun h => Nat.one_ne_zero h.1),
          if_pos ⟨rfl, List.mem_cons_self key ms⟩]
      · have h1 : (if m = key then 1 else 0) = 0 := if_neg (fun h => hk h.symm)
        rw [h1, Nat.add_zero]
        by_cases hmem : countKey acc key = 0 ∧ key ∈ ms
        · rw [if_pos hmem, if_pos ⟨hmem.1, List.mem_cons_of_mem m hmem.2⟩]
        · rw [if_neg hmem,
            if_neg (fun h => hmem ⟨h.1, (List.mem_cons.mp h.2).resolve_left hk⟩)]

theorem countKey_dictInit (models : List String) (key : String) :
    countKey (dictInit models) key = if key ∈ models then 1 else 0 := by
  rw [dictInit, countKey_dictInit_aux]
  have : countKey [] key = 0 := rfl
  rw [this]
  by_cases h : key ∈ models <;> simp [h]

theorem totalResults_dictInit (models : List String) :
    totalResults (dictInit models) = 0 := by
  suffices h : ∀ (ms : List String) (acc : List (String × List RunResult)),
      totalResults
        (ms.foldl
          (fun acc m => if acc.any (fun p => p.1 = m) then acc else acc ++ [(m, [])]) acc) =
      totalResults acc by
    rw [dictInit, h]
    rfl
  intro ms
  induction ms with
  | nil => intro acc; rfl
  | cons m ms ih =>
    intro acc
    rw [List.foldl_cons, ih]
    by_cases hany : acc.any (fun p => p.1 = m) = true
    · rw [if_pos hany]
    · rw [if_neg hany]
      unfold totalResults
      simp

theorem batchGo_total (taskFn : String → ℕ → Except String RunResult)
    (lastModel : String) (numRuns total : ℕ) (delay : ℤ) :
    ∀ (ts : List (String × ℕ)) (acc : BatchOutput),
      (∀ t ∈ ts, countKey acc.results t.1 = 1) →
      totalResults (batchGo taskFn lastModel numRuns total delay ts acc).results =
        totalResults acc.results + (ts.filter (taskOk taskFn)).length := by
  intro ts
  induction ts with
  | nil => intro acc _; simp [batchGo]
  | cons t ts ih =>
    intro acc hinv
    rw [batchGo]
    cases h : taskFn t.1 t.2 with
    | ok r =>
      dsimp only
      rw [ih]
      · dsimp only
        rw [totalResults_dictAppend, hinv t (List.mem_cons_self t ts), List.filter_cons]
        rw [show taskOk taskFn t = true from by unfold taskOk; rw [h]]
        simp only [if_true, List.length_cons]
        omega
      · intro t2 ht2
        dsimp only
        rw [countKey_dictAppend]
        exact hinv t2 (List.mem_cons_of_mem t ht2)
    | error e =>
      dsimp only
      rw [ih]
      · dsimp only
        rw [List.filter_cons, show taskOk taskFn t = false from by unfold taskOk; rw [h]]
        simp
      · intro t2 ht2
        exact hinv t2 (List.mem_cons_of_mem t ht2)

theorem taskSeq_mem (numRuns : ℕ) :
    ∀ (models : List String) (t : String × ℕ), t ∈ taskSeq numRuns models → t.1 ∈ models := by
  intro models
  induction models with
  | nil => intro t ht; simp [taskSeq] at ht
  | cons m ms ih =>
    intro t ht
    rw [taskSeq] at ht
    rcases List.mem_append.mp ht with h | h
    · obtain ⟨j, _, rfl⟩ := List.mem_map.mp h
      exact List.mem_cons_self m ms
    · exact List.mem_cons_of_mem m (ih t h)

theorem taskSeq_length (numRuns : ℕ) :
    ∀ models : List String, (taskSeq numRuns models).length = models.length * numRuns := by
  intro models
  induction models with
  | nil => simp [taskSeq]
  | cons m ms ih =>
    rw [taskSeq, List.length_append, List.length_map, List.length_range, ih,
      List.length_cons, Nat.succ_mul]
    omega

theorem taskSeq_getElem? (numRuns : ℕ) (hn : 0 < numRuns) :
    ∀ (models : List String) (k : ℕ),
      (taskSeq numRuns models)[k]? =
        (models[k / numRuns]?).map (fun m => (m, k % numRuns)) := by
  intro models
  induction models with
  | nil => intro k; simp [taskSeq]
  | cons m ms ih =>
    intro k
    rw [taskSeq]
    by_cases hk : k < numRuns
    · rw [List.getElem?_append, if_pos (by simpa using hk)]
      rw [List.getElem?_map, List.getElem?_range hk]
      rw [Nat.div_eq_of_lt hk, Nat.mod_eq_of_lt hk]
      simp
    · push_neg at hk
      rw [List.getElem?_append, if_neg (by simpa using Nat.not_lt.mpr hk)]
      simp only [List.length_map, List.length_range]
      rw [ih (k - numRuns)]
      rw [Nat.div_eq_sub_div hn hk, Nat.mod_eq_sub_mod hk]
      rw [List.getElem?_cons_succ]

theorem runBatch_events (taskFn : String → ℕ → Except String RunResult)
    (models : List String) (numRuns : ℕ) (delay : ℤ) :
    (runBatchInteraction taskFn models numRuns delay).events =
      (taskSeq numRuns models).map
        (taskEventOf taskFn (models.getLast?.getD "") numRuns delay) := by
  rw [runBatchInteraction, batchGo_events]
  rfl

/-! ## Claims C6 and C9 -/

/-- A trivial successful run result for batch fixtures. -/
def okResult (m : String) : RunResult :=
  { model_name := m, run_id := "r", conversation := {} }

/-- A task function that always succeeds. -/
def taskAllOk : String → ℕ → Except String RunResult := fun m _ => .ok (okResult m)

/-- A task function failing exactly on the first run of `model-b`. -/
def taskOneFail : String → ℕ → Except String RunResult := fun m j =>
  if m = "model-b" ∧ j = 0 then .error "task blew up" else .ok (okResult m)

/-- Placeholder task event used as the default of `List.getD`. -/
def blankEvent : TaskEvent :=
  { model := "", runIndex := 0, ok := false, slept := false }

/-- **C6.**  Every batch runs all `M × R` tasks (one event per task); a
failing task adds no entry and no placeholder anywhere — the total number
of stored `RunResult`s equals the number of successful tasks — and the
batch itself never raises (it is a total function).  With 2 models × 2
runs and exactly one failing task, exactly 3 `RunResult`s are produced
and distributed `[2, 1]` over the two models. -/
theorem C6_task_failure_isolation :
    (∀ (taskFn : String → ℕ → Except String RunResult) (models : List String)
      (n : ℕ) (delay : ℤ),
      (runBatchInteraction taskFn models n delay).events.length = models.length * n ∧
      totalResults (runBatchInteraction taskFn models n delay).results =
        ((taskSeq n models).filter (taskOk taskFn)).length) ∧
    totalResults (runBatchInteraction taskOneFail ["model-a", "model-b"] 2 3000).results
      = 3 ∧
    (runBatchInteraction taskOneFail ["model-a", "model-b"] 2 3000).events.length = 4 ∧
    ((runBatchInteraction taskOneFail ["model-a", "model-b"] 2 3000).results.map
      (fun p => (p.1, p.2.length))) = [("model-a", 2), ("model-b", 1)] := by
  refine ⟨?_, rfl, rfl, rfl⟩
  intro taskFn models n delay
  constructor
  · rw [runBatch_events, List.length_map, taskSeq_length]
  · rw [runBatchInteraction, batchGo_total]
    · show totalResults (dictInit models) + _ = _
      rw [totalResults_dictInit, Nat.zero_add]
    · intro t ht
      show countKey (dictInit models) t.1 = 1
      rw [countKey_dictInit, if_pos (taskSeq_mem n models t ht)]

/-- Counterexample to C9 as stated: in the batch over `["a", "b", "a"]`
with one run per model and a positive delay, every task succeeds, yet no
sleep follows the very first task even though it is not the last task of
the batch — because the sleep condition compares the current model
identifier with `models[-1]` and the repeated identifier `"a"` equals it. -/
theorem C9_counterexample :
    (3000 : ℤ) > 0 ∧
    (runBatchInteraction taskAllOk ["a", "b", "a"] 1 3000).events.map
      (fun e => (e.ok, e.slept)) = [(true, false), (true, true), (true, false)] ∧
    (runBatchInteraction taskAllOk ["a", "b", "a"] 1 3000).events.length = 3 := by
  refine ⟨by norm_num, rfl, rfl⟩

/-- **C9 (amended).**  A sleep of `interTaskDelayMs` follows a task
exactly when the task succeeded, the delay is positive, and the task is
not the last run of a model occurrence whose identifier equals the last
listed model identifier; consequently, when the model identifiers are
pairwise distinct, the sleep is skipped exactly after the very last task
of the entire batch. -/
theorem C9_inter_task_delay :
    (∀ (taskFn : String → ℕ → Except String RunResult) (models : List String)
      (n : ℕ) (delay : ℤ) (k : ℕ) (ev : TaskEvent),
      (runBatchInteraction taskFn models n delay).events[k]? = some ev →
      (ev.slept = true ↔
        ev.ok = true ∧ delay > 0 ∧
          (ev.runIndex < n - 1 ∨ ev.model ≠ models.getLast?.getD ""))) ∧
    (∀ (taskFn : String → ℕ → Except String RunResult) (models : List String)
      (n : ℕ) (delay : ℤ) (k : ℕ) (ev : TaskEvent),
      models.Nodup → 0 < n → delay > 0 →
      (runBatchInteraction taskFn models n delay).events[k]? = some ev →
      ev.ok = true →
      (ev.slept = false ↔ k = models.length * n - 1)) := by
  constructor
  · intro taskFn models n delay k ev hk
    rw [runBatch_events, List.getElem?_map] at hk
    cases ht : (taskSeq n models)[k]? with
    | none => rw [ht] at hk; cases hk
    | some t =>
      rw [ht] at hk
      simp only [Option.map_some', Option.some.injEq] at hk
      subst hk
      unfold taskEventOf
      cases h : taskFn t.1 t.2 with
      | ok r =>
        dsimp only
        simp only [decide_eq_true_eq]
        constructor
        · intro hc
          exact ⟨trivial, hc.1, hc.2⟩
        · intro hc
          exact ⟨hc.2.1, hc.2.2⟩
      | error e =>
        dsimp only
        constructor
        · intro hfalse; cases hfalse
        · intro hc; cases hc.1
  · intro taskFn models n delay k ev hnodup hn hdelay hk hok
    rw [runBatch_events, List.getElem?_map] at hk
    cases ht : (taskSeq n models)[k]? with
    | none => rw [ht] at hk; cases hk
    | some t =>
      rw [ht] at hk
      simp only [Option.map_some', Option.some.injEq] at hk
      subst hk
      have hklt : k < models.length * n := by
        have := indexLtOfSome _ k t ht
        rwa [taskSeq_length] at this
      rw [taskSeq_getElem? n hn models k] at ht
      have hdiv_lt : k / n < models.length := (Nat.div_lt_iff_lt_mul hn).mpr hklt
      rw [List.getElem?_eq_getElem hdiv_lt] at ht
      simp only [Option.map_some', Option.some.injEq] at ht
      have hL : 0 < models.length := lt_of_le_of_lt (Nat.zero_le _) hdiv_lt
      have hL1 : models.length - 1 < models.length := by omega
      have hlast : models.getLast?.getD "" = models[models.length - 1] := by
        rw [List.getLast?_eq_getElem?, List.getElem?_eq_getElem hL1]
        rfl
      have ht1 : t.1 = models[k / n] := (congrArg Prod.fst ht).symm
      have ht2 : t.2 = k % n := (congrArg Prod.snd ht).symm
      unfold taskEventOf at hok ⊢
      cases h : taskFn t.1 t.2 with
      | error e =>
        rw [h] at hok
        simp at hok
      | ok r =>
        dsimp only
        rw [decide_eq_false_iff_not, ht1, ht2, hlast]
        have hmodlt : k % n < n := Nat.mod_lt k hn
        constructor
        · intro hnot
          have hbc := not_and.mp hnot hdelay
          push_neg at hbc
          obtain ⟨hmodge, heq⟩ := hbc
          have hmodeq : k % n = n - 1 := by
            set r := k % n with hr
            omega
          have hdiveq : k / n = models.length - 1 :=
            (List.Nodup.getElem_inj_iff hnodup).mp heq
          obtain ⟨l, hl⟩ : ∃ l, models.length = l + 1 := ⟨models.length - 1, by omega⟩
          have hdm := Nat.div_add_mod k n
          rw [hdiveq, hmodeq, hl] at hdm
          simp only [Nat.add_sub_cancel] at hdm
          rw [Nat.mul_comm n l] at hdm
          rw [hl, Nat.succ_mul]
          set A := l * n with hA
          omega
        · intro hkeq
          obtain ⟨l, hl⟩ : ∃ l, models.length = l + 1 := ⟨models.length - 1, by omega⟩
          rw [hl, Nat.succ_mul] at hkeq
          have hkeq2 : k = (n - 1) + l * n := by
            set A := l * n with hA
            omega
          have hmodeq : k % n = n - 1 := by
            rw [hkeq2, Nat.add_mul_mod_self_right, Nat.mod_eq_of_lt (by omega)]
          have hdiveq : k / n = l := by
            rw [hkeq2, Nat.add_mul_div_right _ _ hn, Nat.div_eq_of_lt (by omega),
              Nat.zero_add]
          intro hc
          rcases hc.2 with hlt | hne
          · rw [hmodeq] at hlt
            omega
          · apply hne
            have hidx : k / n = models.length - 1 := by rw [hdiveq, hl]; simp
            have h1 : models[k / n]? = models[models.length - 1]? := by rw [hidx]
            rw [List.getElem?_eq_getElem hdiv_lt, List.getElem?_eq_getElem hL1] at h1
            exact Option.some.inj h1

/-- Witness for the amended C9: in a 2-model × 1-run batch with distinct
identifiers and positive delay, the first (non-final, successful) task is
followed by a sleep and the final task is not. -/
theorem C9_inter_task_delay_witness :
    ((runBatchInteraction taskAllOk ["a", "b"] 1 3000).events.getD 1 blankEvent).slept
      = false ∧
    ((runBatchInteraction taskAllOk ["a", "b"] 1 3000).events.getD 0 blankEvent).slept
      = true := by
  constructor
  · exact (C9_inter_task_delay.2 taskAllOk ["a", "b"] 1 3000 1
      ((runBatchInteraction taskAllOk ["a", "b"] 1 3000).events.getD 1 blankEvent)
      (by decide) Nat.one_pos (by norm_num) rfl rfl).mpr rfl
  · exact (C9_inter_task_delay.1 taskAllOk ["a", "b"] 1 3000 0
      ((runBatchInteraction taskAllOk ["a", "b"] 1 3000).events.getD 0 blankEvent)
      rfl).mpr ⟨rfl, by norm_num, Or.inr (by decide)⟩

/-! ## Claim C7 -/

theorem sumWith_eq_map_sum (f : RunResult → ℚ) :
    ∀ rs : List RunResult, sumWith f rs = (rs.map f).sum := by
  intro rs
  induction rs with
  | nil => rfl
  | cons r rs ih => simp [sumWith, ih]

theorem countMirrorPasses_eq (rs : List RunResult) :
    countMirrorPasses rs =
      (rs.filter (fun r => r.mirror_test_passed = some true)).length := by
  induction rs with
  | nil => rfl
  | cons r rs ih =>
    unfold countMirrorPasses
    rw [ih, List.filter_cons]
    cases h : r.mirror_test_passed with
    | none => simp [h]
    | some b =>
      cases b with
      | false => simp [h]
      | true => simp [h]; omega

/-- A synthesis judge returning fixed text, for the C7 fixtures. -/
def synthTest : List RunResult → Except String String := fun _ => .ok "synthesis"

/-- Fixture run with compliance rate 0.8 and a passed mirror test. -/
def runA : RunResult :=
  { model_name := "m", run_id := "1", conversation := {},
    compliance_rate := some (4/5), mirror_test_passed := some true }

/-- Fixture run with compliance rate 0.9 and a passed mirror test. -/
def runB : RunResult :=
  { model_name := "m", run_id := "2", conversation := {},
    compliance_rate := some (9/10), mirror_test_passed := some true }

/-- **C7.**  For every nonempty run list, `generate_model_summary`
returns (without raising) a summary whose four averages are the
arithmetic means over the list with absent values read as 0, and whose
mirror pass rate is 100 times the fraction of runs with
`mirror_test_passed = true`; in particular rates 0.8 and 0.9 average to
0.85 and 2-of-2 mirror passes give 100. -/
theorem C7_model_summary_averages :
    (∀ (synthFn : List RunResult → Except String String) (rs : List RunResult),
      rs ≠ [] →
      ∃ s, generateModelSummary synthFn rs = .ok s ∧
        s.total_runs = rs.length ∧
        s.avg_compliance_rate =
          (rs.map (fun r => r.compliance_rate.getD 0)).sum / (rs.length : ℚ) ∧
        s.avg_failures =
          (rs.map (fun r => ((r.failure_count.getD 0 : ℤ) : ℚ))).sum / (rs.length : ℚ) ∧
        s.avg_malformed_braces =
          (rs.map (fun r => ((r.malformed_braces_count.getD 0 : ℤ) : ℚ))).sum /
            (rs.length : ℚ) ∧
        s.avg_autonomy_score =
          (rs.map (fun r => r.autonomy_score.getD 0)).sum / (rs.length : ℚ) ∧
        s.mirror_test_pass_rate =
          ((rs.filter (fun r => r.mirror_test_passed = some true)).length : ℚ) /
            (rs.length : ℚ) * 100) ∧
    (generateModelSummary synthTest [runA, runB]).map ModelSummary.avg_compliance_rate
      = .ok (17/20) ∧
    (generateModelSummary synthTest [runA, runB]).map ModelSummary.mirror_test_pass_rate
      = .ok 100 := by
  have hgen : ∀ (synthFn : List RunResult → Except String String) (rs : List RunResult),
      rs ≠ [] →
      ∃ s, generateModelSummary synthFn rs = .ok s ∧
        s.total_runs = rs.length ∧
        s.avg_compliance_rate =
          (rs.map (fun r => r.compliance_rate.getD 0)).sum / (rs.length : ℚ) ∧
        s.avg_failures =
          (rs.map (fun r => ((r.failure_count.getD 0 : ℤ) : ℚ))).sum / (rs.length : ℚ) ∧
        s.avg_malformed_braces =
          (rs.map (fun r => ((r.malformed_braces_count.getD 0 : ℤ) : ℚ))).sum /
            (rs.length : ℚ) ∧
        s.avg_autonomy_score =
          (rs.map (fun r => r.autonomy_score.getD 0)).sum / (rs.length : ℚ) ∧
        s.mirror_test_pass_rate =
          ((rs.filter (fun r => r.mirror_test_passed = some true)).length : ℚ) /
            (rs.length : ℚ) * 100 := by
    intro synthFn rs hne
    match rs, hne with
    | r0 :: rs2, _ =>
      refine ⟨_, rfl, rfl, ?_, ?_, ?_, ?_, ?_⟩
      · dsimp only
        rw [sumWith_eq_map_sum]
      · dsimp only
        rw [sumWith_eq_map_sum]
      · dsimp only
        rw [sumWith_eq_map_sum]
      · dsimp only
        rw [sumWith_eq_map_sum]
      · dsimp only
        rw [countMirrorPasses_eq]
  refine ⟨hgen, ?_, ?_⟩
  · obtain ⟨s, hok, _, h1, _⟩ := hgen synthTest [runA, runB] (by simp)
    rw [hok]
    simp only [Except.map, h1]
    norm_num [runA, runB]
  · obtain ⟨s, hok, _, _, _, _, _, h5⟩ := hgen synthTest [runA, runB] (by simp)
    rw [hok]
    simp only [Except.map, h5]
    norm_num [runA, runB, List.filter_cons]

/-- Witness for C7 at the concrete pair of runs, discharging the
nonemptiness hypothesis. -/
theorem C7_model_summary_averages_witness :
    (generateModelSummary synthTest [runA, runB]).map ModelSummary.total_runs = .ok 2 := by
  obtain ⟨s, hok, h0, _⟩ :=
    C7_model_summary_averages.1 synthTest [runA, runB] (by simp)
  rw [hok]
  simp only [Except.map, h0]
  rfl

/-! ## Judge JSON extraction (`_extract_json_from_text`)

The Python function first tries `json.loads` on the whole text, then
searches the fenced-block pattern
`r'```(?:json)?\s*({[\s\S]*?})\s*```'` and strict-parses its group, then
strict-parses each non-overlapping lazy `({[\s\S]*?})` candidate in
order, and finally returns an error dictionary carrying the raw text.
`json.loads` (CPython's strict decoder) is embedded below over
`List Char`: JSON whitespace is ` \t\n\r`; strings keep their raw
(unescaped) contents and reject control characters and invalid escapes;
numbers keep their maximal-munch lexeme `-?(0|[1-9]\d*)(\.\d+)?([eE][-+]?\d+)?`;
the Python-specific constants `NaN`, `Infinity` and `-Infinity` are
accepted as number lexemes.  The regex `\s` class is modelled as the six
ASCII whitespace characters. -/

/-- JSON whitespace as skipped by CPython's decoder. -/
def isJsonWs (c : Char) : Bool := c = ' ' || c = '\t' || c = '\n' || c = '\r'

/-- ASCII `\s` of Python's `re` module. -/
def isRegexWs (c : Char) : Bool :=
  isJsonWs c || c = Char.ofNat 11 || c = Char.ofNat 12

/-- Parsed JSON values.  Strings hold their raw quoted contents and
numbers their lexemes; both choices are injective images of the source
text, which is all the extraction contract needs. -/
inductive Json where
  | null
  | bool (b : Bool)
  | num (lexeme : String)
  | str (raw : String)
  | arr (elts : List Json)
  | obj (members : List (String × Json))
deriving Repr

/-- `c.isHexDigit` for the `\uXXXX` escape. -/
def isHexDig (c : Char) : Bool :=
  c.isDigit || ('a' ≤ c && c ≤ 'f') || ('A' ≤ c && c ≤ 'F')

/-- The single-character escapes accepted by the strict decoder. -/
def escapeChars : List Char := ['"', '\\', '/', 'b', 'f', 'n', 'r', 't']

/-- Scan a string body after the opening quote: returns the raw contents
and the remainder after the closing quote.  Rejects raw control
characters and invalid escapes, as `json.loads` does in strict mode. -/
def parseStringBody : List Char → Option (List Char × List Char)
  | [] => none
  | c :: cs =>
    if c = '"' then some ([], cs)
    else if c = '\\' then
      match cs with
      | [] => none
      | e :: cs2 =>
        if e = 'u' then
          match cs2 with
          | h1 :: h2 :: h3 :: h4 :: cs3 =>
            if isHexDig h1 && isHexDig h2 && isHexDig h3 && isHexDig h4 then
              (parseStringBody cs3).map (fun p => (c :: e :: h1 :: h2 :: h3 :: h4 :: p.1, p.2))
            else none
          | _ => none
        else if e ∈ escapeChars then
          (parseStringBody cs2).map (fun p => (c :: e :: p.1, p.2))
        else none
    else if c.toNat < 32 then none
    else (parseStringBody cs).map (fun p => (c :: p.1, p.2))

/-- Integer part of the number regex: `0|[1-9]\d*`. -/
def lexInt : List Char → Option (List Char × List Char)
  | [] => none
  | c :: cs =>
    if c = '0' then some ([c], cs)
    else if c.isDigit then
      let p := cs.span Char.isDigit
      some (c :: p.1, p.2)
    else none

/-- Optional fraction `(\.\d+)?`. -/
def lexFrac : List Char → List Char × List Char
  | [] => ([], [])
  | c :: cs =>
    if c = '.' then
      match cs.span Char.isDigit with
      | ([], _) => ([], c :: cs)
      | (d :: ds, rest) => (c :: d :: ds, rest)
    else ([], c :: cs)

/-- Optional exponent `([eE][-+]?\d+)?`. -/
def lexExp : List Char → List Char × List Char
  | [] => ([], [])
  | c :: cs =>
    if c = 'e' ∨ c = 'E' then
      match cs with
      | [] => ([], [c])
      | s :: cs2 =>
        if s = '+' ∨ s = '-' then
          match cs2.span Char.isDigit with
          | ([], _) => ([], c :: s :: cs2)
          | (d :: ds, rest) => (c :: s :: d :: ds, rest)
        else
          match (s :: cs2).span Char.isDigit with
          | ([], _) => ([], c :: s :: cs2)
          | (d :: ds, rest) => (c :: d :: ds, rest)
    else ([], c :: cs)

/-- Maximal-munch number lexeme
`-?(0|[1-9]\d*)(\.\d+)?([eE][-+]?\d+)?`. -/
def lexNumber : List Char → Option (List Char × List Char)
  | [] => none
  | c :: cs =>
    if c = '-' then
      match lexInt cs with
      | some (ip, r1) =>
        let f := lexFrac r1
        let e := lexExp f.2
        some (c :: (ip ++ f.1 ++ e.1), e.2)
      | none => none
    else
      match lexInt (c :: cs) with
      | some (ip, r1) =>
        let f := lexFrac r1
        let e := lexExp f.2
        some (ip ++ f.1 ++ e.1, e.2)
      | none => none

/-- Skip JSON whitespace. -/
def skipWs (cs : List Char) : List Char := cs.dropWhile isJsonWs

mutual

/-- One JSON value, fuel-indexed.  Mirrors CPython's `scan_once`: string,
object, array, the literals, the number regex, then the constants. -/
def parseValue : ℕ → List Char → Option (Json × List Char)
  | 0, _ => none
  | fuel + 1, cs =>
    match cs with
    | [] => none
    | c :: cs' =>
      if c = '"' then
        (parseStringBody cs').map (fun p => (Json.str (String.mk p.1), p.2))
      else if c = obr then
        match skipWs cs' with
        | c2 :: cs2 =>
          if c2 = cbr then some (Json.obj [], cs2)
          else if c2 = '"' then parseMembers fuel cs2 []
          else none
        | [] => none
      else if c = '[' then
        match skipWs cs' with
        | c2 :: cs2 =>
          if c2 = ']' then some (Json.arr [], cs2)
          else parseElems fuel (skipWs cs') []
        | [] => none
      else if leadsWith "null".data cs then some (Json.null, cs.drop 4)
      else if leadsWith "true".data cs then some (Json.bool true, cs.drop 4)
      else if leadsWith "false".data cs then some (Json.bool false, cs.drop 5)
      else
        match lexNumber cs with
        | some (lex, rest) => some (Json.num (String.mk lex), rest)
        | none =>
          if leadsWith "NaN".data cs then some (Json.num "NaN", cs.drop 3)
          else if leadsWith "Infinity".data cs then some (Json.num "Infinity", cs.drop 8)
          else if leadsWith "-Infinity".data cs then some (Json.num "-Infinity", cs.drop 9)
          else none

/-- Object members, entered right after the opening quote of a key. -/
def parseMembers : ℕ → List Char → List (String × Json) → Option (Json × List Char)
  | 0, _, _ => none
  | fuel + 1, afterQuote, acc =>
    match parseStringBody afterQuote with
    | none => none
    | some (key, r1) =>
      match skipWs r1 with
      | c2 :: r2 =>
        if c2 = ':' then
          match parseValue fuel (skipWs r2) with
          | none => none
          | some (v, r3) =>
            match skipWs r3 with
            | c4 :: r4 =>
              if c4 = cbr then some (Json.obj (acc ++ [(String.mk key, v)]), r4)
              else if c4 = ',' then
                match skipWs r4 with
                | c5 :: r5 =>
                  if c5 = '"' then parseMembers fuel r5 (acc ++ [(String.mk key, v)])
                  else none
                | [] => none
              else none
            | [] => none
        else none
      | [] => none

/-- Array elements, entered at the start of the first element. -/
def parseElems : ℕ → List Char → List Json → Option (Json × List Char)
  | 0, _, _ => none
  | fuel + 1, cs, acc =>
    match parseValue fuel cs with
    | none => none
    | some (v, r1) =>
      match skipWs r1 with
      | c2 :: r2 =>
        if c2 = ']' then some (Json.arr (acc ++ [v]), r2)
        else if c2 = ',' then parseElems fuel (skipWs r2) (acc ++ [v])
        else none
      | [] => none

end

/-- `json.loads` on a character list: strip surrounding whitespace, parse
one value, and require the remainder to be whitespace only. -/
def jsonParseL (cs : List Char) : Option Json :=
  match parseValue (2 * cs.length + 2) (skipWs cs) with
  | some (v, rest) => if skipWs rest = [] then some v else none
  | none => none

/-- `json.loads` on a string. -/
def jsonParse (t : String) : Option Json := jsonParseL t.data

/-! ### The fenced-block regex and the candidate scan -/

/-- Does the suffix match `\s*```​`? -/
def closingOk (cs : List Char) : Bool :=
  leadsWith [btk, btk, btk] (cs.dropWhile isRegexWs)

/-- The lazy group `[\s\S]*?` before `}\s*```​`: stop at the first `}`
whose suffix matches `\s*```​`, consuming every other character. -/
def lazyClose : List Char → List Char → Option (List Char)
  | [], _ => none
  | c :: cs, acc =>
    if c = cbr ∧ closingOk cs = true then some acc.reverse
    else lazyClose cs (c :: acc)

/-- After the fence and optional tag: `\s*` then the group `({...})`. -/
def fenceBody (cs : List Char) : Option (List Char) :=
  match cs.dropWhile isRegexWs with
  | c :: cs2 =>
    if c = obr then (lazyClose cs2 []).map (fun content => obr :: (content ++ [cbr]))
    else none
  | [] => none

/-- Attempt the whole fenced pattern at one start position, with the
regex preference order: the `json` tag consumed first, then without. -/
def matchFenceAt (cs : List Char) : Option (List Char) :=
  if leadsWith [btk, btk, btk] cs then
    let after := cs.drop 3
    if leadsWith "json".data after then
      match fenceBody (after.drop 4) with
      | some g => some g
      | none => fenceBody after
    else fenceBody after
  else none

/-- `re.search`: leftmost start position at which the pattern matches. -/
def fencedSearch : List Char → Option (List Char)
  | [] => none
  | c :: cs =>
    match matchFenceAt (c :: cs) with
    | some g => some g
    | none => fencedSearch cs

/-- Split at the first `}`: the scanned prefix and the remainder. -/
def firstClose : List Char → List Char → Option (List Char × List Char)
  | [], _ => none
  | c :: cs, acc =>
    if c = cbr then some (acc.reverse, cs) else firstClose cs (c :: acc)

theorem firstClose_length :
    ∀ (cs acc content rest : List Char),
      firstClose cs acc = some (content, rest) → rest.length < cs.length := by
  intro cs
  induction cs with
  | nil => intro acc content rest h; cases h
  | cons c cs ih =>
    intro acc content rest h
    rw [firstClose] at h
    by_cases hc : c = cbr
    · rw [if_pos hc] at h
      injection h with h
      have hr : rest = cs := (congrArg Prod.snd h).symm
      rw [hr, List.length_cons]
      exact Nat.lt_succ_self _
    · rw [if_neg hc] at h
      exact Nat.lt_trans (ih _ _ _ h) (Nat.lt_succ_self _)

/-- The third step's `re.finditer(r'({[\s\S]*?})', text)` with a strict
parse of each candidate: each lazy candidate runs from a `{` to the first
following `}`; on parse failure scanning resumes after that `}`
(matches are non-overlapping). -/
def scanGo : ℕ → List Char → Option Json
  | 0, _ => none
  | _ + 1, [] => none
  | fuel + 1, c :: cs =>
    if c = obr then
      match firstClose cs [] with
      | some (content, rest) =>
        match jsonParseL (obr :: (content ++ [cbr])) with
        | some v => some v
        | none => scanGo fuel rest
      | none => none
    else scanGo fuel cs

/-- Each recursive step of `scanGo` strictly shortens the list
(`firstClose` returns a strict tail), so fuel equal to the length is
enough for the fuelled scan to agree with the unbounded one. -/
def scanCandidates (cs : List Char) : Option Json := scanGo cs.length cs

/-- Result of `_extract_json_from_text`: a parsed dictionary or the
error dictionary `{"error": ..., "raw_text": text}` carrying the raw
text. -/
inductive ExtractResult where
  | parsed (v : Json)
  | errorObj (raw : String)
deriving Repr

/-- `_extract_json_from_text` (`app/core/evaluator.py`, lines 281-318). -/
def extractJsonFromText (t : String) : ExtractResult :=
  match jsonParse t with
  | some v => .parsed v
  | none =>
    match fencedSearch t.data with
    | some g =>
      match jsonParseL g with
      | some v => .parsed v
      | none =>
        match scanCandidates t.data with
        | some v => .parsed v
        | none => .errorObj t
    | none =>
      match scanCandidates t.data with
      | some v => .parsed v
      | none => .errorObj t

/-- Wrapping a text in a ```json fenced code block. -/
def wrapFence (t : String) : String := "```json\n" ++ t ++ "\n```"

/-! ### Lemmas about the fenced-block search -/

theorem parseValue_btk (n : ℕ) (cs : List Char) : parseValue n (btk :: cs) = none := by
  match n with
  | 0 => rfl
  | _ + 1 => rfl

theorem jsonParseL_btk (cs : List Char) : jsonParseL (btk :: cs) = none := by
  unfold jsonParseL
  rw [show skipWs (btk :: cs) = btk :: cs from rfl, parseValue_btk]

/-- Step 1 always fails on a fenced-wrapped text: it starts with a
backtick. -/
theorem jsonParse_wrap_none (t : String) : jsonParse (wrapFence t) = none := by
  show jsonParseL (wrapFence t).data = none
  have hd : (wrapFence t).data =
      btk :: btk :: btk :: 'j' :: 's' :: 'o' :: 'n' :: '\n' ::
        (t.data ++ ('\n' :: btk :: btk :: btk :: [])) := by
    show ("```json\n" ++ t ++ "\n```").data = _
    rw [String.data_append, String.data_append, List.append_assoc]
    rfl
  rw [hd]
  exact jsonParseL_btk _

theorem leadsWith_iff (pat : List Char) :
    ∀ l : List Char, leadsWith pat l = true ↔ pat <+: l := by
  induction pat with
  | nil => intro l; simp [leadsWith, List.nil_prefix]
  | cons a as ih =>
    intro l
    cases l with
    | nil =>
      rw [leadsWith]
      simp
    | cons b bs =>
      rw [leadsWith, Bool.and_eq_true, decide_eq_true_eq, ih]
      exact (List.cons_prefix_cons).symm

theorem dropWhile_append_ne_nil (p : Char → Bool) (a b : List Char)
    (h : a.dropWhile p ≠ []) : (a ++ b).dropWhile p = a.dropWhile p ++ b := by
  induction a with
  | nil => simp [List.dropWhile] at h
  | cons c a ih =>
    by_cases hc : p c = true
    · rw [List.dropWhile_cons_of_pos hc] at h
      rw [List.cons_append, List.dropWhile_cons_of_pos hc, List.dropWhile_cons_of_pos hc]
      exact ih h
    · have hc2 : p c = false := by
        cases hpc : p c
        · rfl
        · exact absurd hpc hc
      rw [List.cons_append, List.dropWhile_cons_of_neg (by rw [hc2]; exact Bool.false_ne_true),
        List.dropWhile_cons_of_neg (by rw [hc2]; exact Bool.false_ne_true)]
      rfl

theorem dropWhile_last_stable (p : Char → Bool) (a : List Char) (c : Char)
    (hlast : a.getLast? = some c) (hc : p c = false) :
    a.dropWhile p ≠ [] ∧ (a.dropWhile p).getLast? = some c := by
  have hmem : c ∈ a := by
    obtain ⟨h, heq⟩ := List.mem_getLast?_eq_getLast (by rw [hlast]; rfl)
    rw [heq]
    exact List.getLast_mem h
  have hne : a.dropWhile p ≠ [] := by
    intro h0
    rw [List.dropWhile_eq_nil_iff] at h0
    rw [h0 c hmem] at hc
    cases hc
  obtain ⟨pre, hpre⟩ := List.dropWhile_suffix (l := a) p
  refine ⟨hne, ?_⟩
  rw [← hpre, List.getLast?_append_of_ne_nil pre hne] at hlast
  exact hlast

theorem leadsWith_bbb_false (d0 x : List Char) (hlast : d0.getLast? = some cbr)
    (hni : ¬ ([btk, btk, btk] <:+: d0)) :
    leadsWith [btk, btk, btk] (d0 ++ x) = false := by
  match d0 with
  | [] => simp at hlast
  | [c1] =>
    have hc1 : c1 = cbr := by simpa using hlast
    subst hc1
    simp [leadsWith, (by decide : ¬(btk = cbr))]
  | [c1, c2] =>
    have hc2 : c2 = cbr := by simpa using hlast
    subst hc2
    by_cases h1 : btk = c1
    · subst h1
      simp [leadsWith, (by decide : ¬(btk = cbr))]
    · simp [leadsWith, h1]
  | c1 :: c2 :: c3 :: rest =>
    by_cases h1 : btk = c1
    · subst h1
      by_cases h2 : btk = c2
      · subst h2
        by_cases h3 : btk = c3
        · subst h3
          exfalso
          apply hni
          exact ⟨[], rest, by simp⟩
        · simp [leadsWith, h3]
      · simp [leadsWith, h2]
    · simp [leadsWith, h1]

theorem closingOk_of_mid (u sfx : List Char)
    (hlast : u.getLast? = some cbr)
    (hni : ¬ ([btk, btk, btk] <:+: u)) :
    closingOk (u ++ sfx) = false := by
  unfold closingOk
  obtain ⟨hne, hlast0⟩ := dropWhile_last_stable isRegexWs u cbr hlast (by decide)
  rw [dropWhile_append_ne_nil isRegexWs u sfx hne]
  apply leadsWith_bbb_false _ _ hlast0
  intro hinf
  exact hni (hinf.trans (List.dropWhile_suffix (l := u) isRegexWs).isInfix)

theorem lazyClose_spec :
    ∀ (mid sfx2 acc : List Char),
      (∀ m1 m2, mid = m1 ++ cbr :: m2 → closingOk (m2 ++ cbr :: sfx2) = false) →
      closingOk sfx2 = true →
      lazyClose (mid ++ cbr :: sfx2) acc = some (acc.reverse ++ mid) := by
  intro mid
  induction mid with
  | nil =>
    intro sfx2 acc _ hok
    rw [List.nil_append, lazyClose, if_pos ⟨rfl, hok⟩]
    simp
  | cons m mid ih =>
    intro sfx2 acc hsplit hok
    rw [List.cons_append, lazyClose]
    by_cases hm : m = cbr
    · subst hm
      have hco : closingOk (mid ++ cbr :: sfx2) = false := hsplit [] mid rfl
      rw [if_neg (by rw [hco]; rintro ⟨_, h⟩; cases h)]
      rw [ih sfx2 (cbr :: acc) (fun m1 m2 hm12 => hsplit (cbr :: m1) m2 (by rw [hm12]; rfl))
        hok]
      simp
    · rw [if_neg (by rintro ⟨h, _⟩; exact hm h)]
      rw [ih sfx2 (m :: acc) (fun m1 m2 hm12 => hsplit (m :: m1) m2 (by rw [hm12]; rfl)) hok]
      simp

/-- The closing fence appended after the wrapped text. -/
def fenceSfx : List Char := '\n' :: btk :: btk :: btk :: []

/-- The fenced-search on a wrapped object text captures exactly the
whole text between the fences. -/
theorem fencedSearch_wrap (t : String) (mid : List Char)
    (hdata : t.data = obr :: (mid ++ [cbr]))
    (hnb : ¬ ([btk, btk, btk] <:+: t.data)) :
    fencedSearch (wrapFence t).data = some t.data := by
  have hd : (wrapFence t).data =
      btk :: btk :: btk :: 'j' :: 's' :: 'o' :: 'n' :: '\n' :: (t.data ++ fenceSfx) := by
    show ("```json\n" ++ t ++ "\n```").data = _
    rw [String.data_append, String.data_append, List.append_assoc]
    rfl
  have hsplit : ∀ m1 m2, mid = m1 ++ cbr :: m2 →
      closingOk (m2 ++ cbr :: fenceSfx) = false := by
    intro m1 m2 hm12
    have he : m2 ++ cbr :: fenceSfx = (m2 ++ [cbr]) ++ fenceSfx := by simp
    rw [he]
    apply closingOk_of_mid
    · exact List.getLast?_concat _
    · intro hinf
      apply hnb
      refine hinf.trans ?_
      refine ⟨obr :: (m1 ++ [cbr]), [], ?_⟩
      rw [hdata, hm12]
      simp
  have hok : closingOk fenceSfx = true := rfl
  have hfb : fenceBody ('\n' :: (t.data ++ fenceSfx)) = some t.data := by
    unfold fenceBody
    have hdw : ('\n' :: (t.data ++ fenceSfx)).dropWhile isRegexWs =
        obr :: ((mid ++ [cbr]) ++ fenceSfx) := by
      show (t.data ++ fenceSfx).dropWhile isRegexWs = _
      rw [hdata, List.cons_append]
      rfl
    rw [hdw]
    dsimp only
    rw [if_pos rfl]
    rw [List.append_assoc, List.singleton_append]
    rw [lazyClose_spec mid fenceSfx [] hsplit hok]
    simp only [Option.map_some', List.reverse_nil, List.nil_append]
    rw [← hdata]
  rw [hd, fencedSearch]
  rw [show matchFenceAt (btk :: btk :: btk :: 'j' :: 's' :: 'o' :: 'n' :: '\n' ::
      (t.data ++ fenceSfx)) =
    (match fenceBody ('\n' :: (t.data ++ fenceSfx)) with
      | some g => some g
      | none => fenceBody ('j' :: 's' :: 'o' :: 'n' :: '\n' :: (t.data ++ fenceSfx)))
    from rfl]
  rw [hfb]

/-- A JSON object text whose first string value contains a closing brace
followed by three backticks: `{"a": "}` + three backticks + `", "b": {}}`. -/
def tNasty : String := "\x7b\"a\": \"\x7d```\", \"b\": \x7b\x7d\x7d"

/-- C8 counterexample: `tNasty` strict-parses as a two-member JSON object
and bare extraction returns that object, but wrapping the same text in a
```json fenced block makes the lazy fenced capture grab a malformed
prefix (it stops at the `\x7d` inside the string value, right before the
backticks) and the candidate scan then recovers only the inner empty
object, so wrapped extraction returns a different object. -/
theorem C8_counterexample :
    jsonParse tNasty =
      some (Json.obj [("a", Json.str "\x7d```"), ("b", Json.obj [])]) ∧
    extractJsonFromText tNasty =
      .parsed (Json.obj [("a", Json.str "\x7d```"), ("b", Json.obj [])]) ∧
    extractJsonFromText (wrapFence tNasty) = .parsed (Json.obj []) ∧
    Json.obj ([] : List (String × Json)) ≠
      Json.obj [("a", Json.str "\x7d```"), ("b", Json.obj [])] := by
  refine ⟨rfl, rfl, rfl, ?_⟩
  intro h
  injection h with h1
  exact List.noConfusion h1

/-- C8 (amended): for a text `t` that strict-parses as a JSON object,
begins with `\x7b`, ends with `\x7d` and contains no triple-backtick
sequence, extraction returns that object both on the bare text and on
the text wrapped in a ```json fenced block; and on every input the
extractor returns either a parsed value or the error object carrying the
raw text — it never fails. -/
theorem C8_json_extraction (t : String) (kvs : List (String × Json))
    (hparse : jsonParse t = some (Json.obj kvs))
    (hhead : t.data.head? = some obr)
    (hlast : t.data.getLast? = some cbr)
    (hnb : ¬ ([btk, btk, btk] <:+: t.data)) :
    extractJsonFromText t = .parsed (Json.obj kvs) ∧
    extractJsonFromText (wrapFence t) = .parsed (Json.obj kvs) ∧
    (∀ u : String, (∃ v, extractJsonFromText u = .parsed v) ∨
      extractJsonFromText u = .errorObj u) := by
  have hex : ∃ mid, t.data = obr :: (mid ++ [cbr]) := by
    rcases hcs : t.data with _ | ⟨c, cs⟩
    · rw [hcs] at hhead
      simp at hhead
    · rw [hcs] at hhead hlast
      have hc : c = obr := by simpa using hhead
      subst hc
      rcases List.eq_nil_or_concat' cs with rfl | ⟨mid, c2, rfl⟩
      · have : obr = cbr := by simpa using hlast
        exact absurd this (by decide)
      · have hc2 : c2 = cbr := by
          have h : ((obr :: mid) ++ [c2]).getLast? = some cbr := hlast
          rw [List.getLast?_concat] at h
          exact Option.some.inj h
        subst hc2
        exact ⟨mid, rfl⟩
  obtain ⟨mid, hdmid⟩ := hex
  refine ⟨?_, ?_, ?_⟩
  · unfold extractJsonFromText
    rw [hparse]
  · have hp2 : jsonParseL t.data = some (Json.obj kvs) := hparse
    unfold extractJsonFromText
    rw [jsonParse_wrap_none, fencedSearch_wrap t mid hdmid hnb]
    dsimp only
    rw [hp2]
  · intro u
    unfold extractJsonFromText
    cases h1 : jsonParse u with
    | some v => exact Or.inl ⟨v, rfl⟩
    | none =>
      dsimp only
      cases h2 : fencedSearch u.data with
      | some g =>
        dsimp only
        cases h3 : jsonParseL g with
        | some v => exact Or.inl ⟨v, rfl⟩
        | none =>
          dsimp only
          cases h4 : scanCandidates u.data with
          | some v => exact Or.inl ⟨v, rfl⟩
          | none => exact Or.inr rfl
      | none =>
        dsimp only
        cases h4 : scanCandidates u.data with
        | some v => exact Or.inl ⟨v, rfl⟩
        | none => exact Or.inr rfl

/-- C8 witness: the object text `\x7b"a": \x7b"b": 1\x7d\x7d` satisfies
all hypotheses and extracts identically bare and fenced. -/
theorem C8_json_extraction_witness :
    extractJsonFromText "\x7b\"a\": \x7b\"b\": 1\x7d\x7d" =
      .parsed (Json.obj [("a", Json.obj [("b", Json.num "1")])]) ∧
    extractJsonFromText (wrapFence "\x7b\"a\": \x7b\"b\": 1\x7d\x7d") =
      .parsed (Json.obj [("a", Json.obj [("b", Json.num "1")])]) := by
  have h := C8_json_extraction "\x7b\"a\": \x7b\"b\": 1\x7d\x7d"
    [("a", Json.obj [("b", Json.num "1")])] rfl rfl rfl (by decide)
  exact ⟨h.1, h.2.1⟩

end HermitBench
